import Mathlib

/-!
Verification of the LLM-proxy core of the Skepesis backend
(`backend/app/services/llm.py`): the TTL-bounded LRU response cache, the
cache-key digest, prompt validation, prompt building, response truncation,
and the generation gateway with its concurrency permit.

Modelling conventions
- Python text is modelled as `String` / `List Char`; Python `len` is the
  character count, matching Lean's `String.length` / `List.length`.
- Timestamps (`time.time()`) are modelled as `Nat` ticks; the TTL
  comparison `now - created_at > ttl` is rendered exactly as
  `created_at + ttl < now`.
- The float temperature is modelled by its decimal rendering (the string
  Python interpolates into the cache-key content, e.g. "0.3"), which is
  what the digest actually consumes.
- `hashlib.sha256` is implemented bit-exactly below (FIPS 180-4 over
  UTF-8 bytes); its round constants are derived, as in the standard, from
  the fractional parts of cube/square roots of the first primes.
- `OrderedDict` is modelled as an association list, oldest entry first
  (`next(iter(...))` is the head; `move_to_end` moves to the tail;
  assignment to an existing key keeps its position, as in Python).
- Fallible paths (the `while` eviction loop calling `next` on an empty
  iterator when `max_size = 0`) return `Option`.
-/

set_option maxRecDepth 40000

/-! ## SHA-256 (hashlib.sha256, FIPS 180-4), over UTF-8 bytes -/

def M32 : Nat := 4294967296

def rotr (n x : Nat) : Nat := ((x >>> n) ||| (x <<< (32 - n))) % M32

/-- First 64 primes; the SHA-256 round constants are the first 32
fractional bits of their cube roots, the initial hash state the first 32
fractional bits of the square roots of the first 8. -/
def primes64 : List Nat :=
  [2, 3, 5, 7, 11, 13, 17, 19, 23, 29, 31, 37, 41, 43, 47, 53,
   59, 61, 67, 71, 73, 79, 83, 89, 97, 101, 103, 107, 109, 113, 127, 131,
   137, 139, 149, 151, 157, 163, 167, 173, 179, 181, 191, 193, 197, 199, 211, 223,
   227, 229, 233, 239, 241, 251, 257, 263, 269, 271, 277, 281, 283, 293, 307, 311]

def icbrtAux : Nat → Nat → Nat → Nat → Nat
  | 0, _, lo, _ => lo
  | fuel + 1, n, lo, hi =>
    if hi ≤ lo + 1 then lo
    else
      let mid := (lo + hi) / 2
      if mid * mid * mid ≤ n then icbrtAux fuel n mid hi else icbrtAux fuel n lo mid

/-- Integer cube root (largest k with k^3 ≤ n), by bisection. -/
def icbrt (n : Nat) : Nat := icbrtAux 256 n 0 (n + 1)

def isqrtAux : Nat → Nat → Nat → Nat → Nat
  | 0, _, lo, _ => lo
  | fuel + 1, n, lo, hi =>
    if hi ≤ lo + 1 then lo
    else
      let mid := (lo + hi) / 2
      if mid * mid ≤ n then isqrtAux fuel n mid hi else isqrtAux fuel n lo mid

/-- Integer square root, by bisection (kernel-reducible). -/
def isqrt (n : Nat) : Nat := isqrtAux 256 n 0 (n + 1)

def shaK : List Nat := primes64.map (fun p => icbrt (p * 2 ^ 96) % M32)

def shaH0 : List Nat := (primes64.take 8).map (fun p => isqrt (p * 2 ^ 64) % M32)

/-- Big-endian byte rendering of `v` on `k` bytes. -/
def beBytes : Nat → Nat → List Nat
  | 0, _ => []
  | k + 1, v => beBytes k (v / 256) ++ [v % 256]

/-- SHA-256 padding: 0x80, zeros to 56 mod 64, then the 64-bit bit length. -/
def padMessage (msg : List Nat) : List Nat :=
  let L := msg.length
  msg ++ [128] ++ List.replicate ((119 - L % 64) % 64) 0 ++ beBytes 8 (L * 8)

/-- Group bytes into big-endian 32-bit words. -/
def toWords : List Nat → List Nat
  | b0 :: b1 :: b2 :: b3 :: rest => (((b0 * 256 + b1) * 256 + b2) * 256 + b3) :: toWords rest
  | _ => []

/-- Split the padded word stream into 16-word blocks. -/
def chunk16 : List Nat → List (List Nat)
  | w0 :: w1 :: w2 :: w3 :: w4 :: w5 :: w6 :: w7 ::
    w8 :: w9 :: w10 :: w11 :: w12 :: w13 :: w14 :: w15 :: rest =>
      [w0, w1, w2, w3, w4, w5, w6, w7, w8, w9, w10, w11, w12, w13, w14, w15] :: chunk16 rest
  | _ => []

def smallSigma0 (x : Nat) : Nat := (rotr 7 x) ^^^ (rotr 18 x) ^^^ (x >>> 3)

def smallSigma1 (x : Nat) : Nat := (rotr 17 x) ^^^ (rotr 19 x) ^^^ (x >>> 10)

def bigSigma0 (x : Nat) : Nat := (rotr 2 x) ^^^ (rotr 13 x) ^^^ (rotr 22 x)

def bigSigma1 (x : Nat) : Nat := (rotr 6 x) ^^^ (rotr 11 x) ^^^ (rotr 25 x)

def chV (e f g : Nat) : Nat := (e &&& f) ^^^ ((e ^^^ 4294967295) &&& g)

def majV (a b c : Nat) : Nat := (a &&& b) ^^^ (a &&& c) ^^^ (b &&& c)

def iterate (f : α → α) : Nat → α → α
  | 0, a => a
  | n + 1, a => iterate f n (f a)

/-- One message-schedule extension step: append the next scheduled word. -/
def scheduleStep (ws : List Nat) : List Nat :=
  let n := ws.length
  ws ++ [(ws.getD (n - 16) 0 + smallSigma0 (ws.getD (n - 15) 0) +
          ws.getD (n - 7) 0 + smallSigma1 (ws.getD (n - 2) 0)) % M32]

/-- Extend a 16-word block to the 64-word message schedule. -/
def schedule (ws : List Nat) : List Nat := iterate scheduleStep 48 ws

/-- One SHA-256 compression round on the 8-word working state. -/
def compressStep (st : List Nat) (kw : Nat × Nat) : List Nat :=
  match st with
  | [a, b, c, d, e, f, g, h] =>
    let t1 := (h + bigSigma1 e + chV e f g + kw.1 + kw.2) % M32
    let t2 := (bigSigma0 a + majV a b c) % M32
    [(t1 + t2) % M32, a, b, c, (d + t1) % M32, e, f, g]
  | other => other

def compressBlock (h : List Nat) (block : List Nat) : List Nat :=
  let st := (shaK.zip (schedule block)).foldl compressStep h
  (h.zip st).map (fun p => (p.1 + p.2) % M32)

/-- The eight 32-bit words of the SHA-256 digest of a byte string. -/
def sha256words (msg : List Nat) : List Nat :=
  (chunk16 (toWords (padMessage msg))).foldl compressBlock shaH0

def hexDigit (n : Nat) : Char := if n < 10 then Char.ofNat (48 + n) else Char.ofNat (87 + n)

def hexN : Nat → Nat → List Char
  | 0, _ => []
  | k + 1, v => hexN k (v / 16) ++ [hexDigit (v % 16)]

/-- `hashlib.sha256(...).hexdigest()[:16]`: the first 16 hex characters,
i.e. the first two digest words. -/
def sha256hex16 (msg : List Nat) : String :=
  ⟨(((sha256words msg).take 2).map (hexN 8)).flatten⟩

/-- UTF-8 encoding of one character (`str.encode()`). -/
def encodeChar (c : Char) : List Nat :=
  let n := c.toNat
  if n < 128 then [n]
  else if n < 2048 then [192 + n / 64, 128 + n % 64]
  else if n < 65536 then [224 + n / 4096, 128 + (n / 64) % 64, 128 + n % 64]
  else [240 + n / 262144, 128 + (n / 4096) % 64, 128 + (n / 64) % 64, 128 + n % 64]

def utf8Bytes (s : String) : List Nat := s.data.foldr (fun c acc => encodeChar c ++ acc) []

/-! ## Module constants (llm.py lines 30-45, 246-250) -/

def MAX_CONCURRENT_REQUESTS : Nat := 2

def CACHE_MAX_SIZE : Nat := 100

def CACHE_TTL : Nat := 300

def MAX_RESPONSE_LENGTH : Nat := 2000

def TRUNCATION_SUFFIX : List Char := "\n\n[Response truncated]".data

def MAX_PROMPT_LENGTH : Nat := 4000

def MAX_OUTPUT_TOKENS : Nat := 512

def MIN_PROMPT_LENGTH : Nat := 10

/-! ## The LRU cache (llm.py lines 278-363) -/

/-- A cached LLM response with metadata (`CacheEntry` dataclass). -/
structure CacheEntry where
  response : String
  created_at : Nat
  hit_count : Nat
deriving DecidableEq

/-- `LRUCache`: `self._cache` is an `OrderedDict`, modelled as an
association list with the oldest entry at the head (iteration order). -/
structure LRUCache where
  entries : List (String × CacheEntry)
  max_size : Nat
  ttl : Nat
  hits : Nat
  misses : Nat
deriving DecidableEq

/-- Lookup in the ordered map (`key in self._cache` / `self._cache[key]`). -/
def assocFind : List (String × CacheEntry) → String → Option CacheEntry
  | [], _ => none
  | (k', e) :: t, k => if k' = k then some e else assocFind t k

/-- `del self._cache[key]`: remove the (unique, in any dict-reachable
state) binding of `key`. -/
def eraseKey : List (String × CacheEntry) → String → List (String × CacheEntry)
  | [], _ => []
  | (k', e) :: t, k => if k' = k then t else (k', e) :: eraseKey t k

/-- `self._cache[key] = entry`: overwrite in place if the key is present
(an `OrderedDict` keeps the original position), else append at the
most-recently-used end. -/
def assocSet : List (String × CacheEntry) → String → CacheEntry → List (String × CacheEntry)
  | [], k, e => [(k, e)]
  | (k', e') :: t, k, e => if k' = k then (k', e) :: t else (k', e') :: assocSet t k e

/-- The eviction loop of `LRUCache.set`:
`while len(self._cache) >= self._max_size: del self._cache[next(iter(self._cache))]`.
`next` on an empty iterator (only reachable when `max_size = 0`) raises,
modelled as `none`. -/
def evictLoop (m : Nat) : List (String × CacheEntry) → Option (List (String × CacheEntry))
  | [] => if m = 0 then none else some []
  | e :: t => if m ≤ (e :: t).length then evictLoop m t else some (e :: t)

namespace LRUCache

/-- `LRUCache.__init__` with an empty store. -/
def empty (max_size ttl : Nat) : LRUCache :=
  { entries := [], max_size := max_size, ttl := ttl, hits := 0, misses := 0 }

/-- `LRUCache._make_key`: sha256 digest (truncated to 16 hex chars) of
`f"{prompt}|{system}|{temperature}|{max_tokens}"`. The temperature is the
decimal rendering Python interpolates. -/
def keyContent (prompt system temperature : String) (max_tokens : Nat) : String :=
  prompt ++ "|" ++ system ++ "|" ++ temperature ++ "|" ++ toString max_tokens

def make_key (prompt system temperature : String) (max_tokens : Nat) : String :=
  sha256hex16 (utf8Bytes (keyContent prompt system temperature max_tokens))

/-- `LRUCache.get`: returns the cached response if present and within
TTL, moving the entry to the most-recently-used end and bumping counters;
an entry past its TTL is deleted and counted as a miss. -/
def get (c : LRUCache) (key : String) (now : Nat) : Option String × LRUCache :=
  match assocFind c.entries key with
  | none => (none, { c with misses := c.misses + 1 })
  | some e =>
    if e.created_at + c.ttl < now then
      (none, { c with entries := eraseKey c.entries key, misses := c.misses + 1 })
    else
      (some e.response,
       { c with
          entries := eraseKey c.entries key ++ [(key, { e with hit_count := e.hit_count + 1 })],
          hits := c.hits + 1 })

/-- `LRUCache.set`: evict from the least-recently-used end while at
capacity, then store the entry. -/
def set (c : LRUCache) (key response : String) (now : Nat) : Option LRUCache :=
  match evictLoop c.max_size c.entries with
  | none => none
  | some l =>
    some { c with entries := assocSet l key { response := response, created_at := now, hit_count := 0 } }

/-- `LRUCache.clear`: drop all entries (counters are kept). -/
def clear (c : LRUCache) : LRUCache := { c with entries := [] }

end LRUCache

/-- Fold a list of keys into the cache with `set` (value := key), used to
state the capacity properties; `now` is the shared timestamp. -/
def insertAll : LRUCache → List String → Nat → Option LRUCache
  | c, [], _ => some c
  | c, k :: t, now =>
    match c.set k k now with
    | some c' => insertAll c' t now
    | none => none

/-- One client-visible cache operation, for stating the size invariant. -/
inductive CacheOp where
  | get (key : String) (now : Nat)
  | set (key value : String) (now : Nat)
  | clear
deriving DecidableEq

def applyOp (c : LRUCache) : CacheOp → Option LRUCache
  | .get k n => some (c.get k n).2
  | .set k v n => c.set k v n
  | .clear => some c.clear

def runOps : LRUCache → List CacheOp → Option LRUCache
  | c, [] => some c
  | c, op :: t =>
    match applyOp c op with
    | some c' => runOps c' t
    | none => none

/-! ## Python text helpers -/

/-- Python whitespace for `str.strip` and the regex class `\s`
(space, tab, newline, carriage return, vertical tab, form feed). -/
def pyWs (c : Char) : Bool :=
  c = ' ' || c = '\t' || c = '\n' || c = '\r' || c = Char.ofNat 11 || c = Char.ofNat 12

/-- `str.strip()`. -/
def pyStrip (l : List Char) : List Char :=
  ((l.dropWhile pyWs).reverse.dropWhile pyWs).reverse

def pyStripStr (s : String) : String := ⟨pyStrip s.data⟩

/-- `str.lower()` (exact on the ASCII prompts concerned). -/
def lowerStr (s : String) : String := ⟨s.data.map Char.toLower⟩

def emitNl (n : Nat) : List Char := List.replicate (if 3 ≤ n then 2 else n) '\n'

def collapseBlankAux : Nat → List Char → List Char
  | pending, [] => emitNl pending
  | pending, c :: t =>
    if c = '\n' then collapseBlankAux (pending + 1) t
    else emitNl pending ++ c :: collapseBlankAux 0 t

/-- `re.sub(r'\n{3,}', '\n\n', text)`: collapse runs of three or more
newlines to exactly two. -/
def collapseBlank (l : List Char) : List Char := collapseBlankAux 0 l

/-- Index of the last occurrence of `pat` in the list, if any
(for nonempty `pat` this is Python's `str.rfind` with -1 mapped to `none`). -/
def rfindPos (pat : List Char) : List Char → Option Nat
  | [] => if pat = [] then some 0 else none
  | c :: t =>
    match rfindPos pat t with
    | some j => some (j + 1)
    | none => if pat.isPrefixOf (c :: t) then some 0 else none

/-- Python `str.rfind`: last index of `pat`, or -1. -/
def rfind (pat l : List Char) : Int :=
  match rfindPos pat l with
  | some i => (i : Int)
  | none => -1

/-- Python `max` over a nonempty list (head plus tail). -/
def maxInt : Int → List Int → Int
  | a, [] => a
  | a, x :: t => maxInt (max a x) t

/-- `LLMService._truncate_safely` (lines 588-630). The comparison
`last > effective_max * 0.5` is exact as `eff < 2 * last` because 0.5 is
an exact binary float; `last > effective_max * 0.7` is rendered as the
rational `7 * eff < 10 * last`, which agrees with the float comparison
whenever `7 * eff` is not a multiple of 10 - in particular at the only
max_length the service uses (2000, eff = 1978). The model is used with
`TRUNCATION_SUFFIX.length ≤ max_length` (Python would otherwise slice
with a negative index). -/
def truncateSafely (text : List Char) (max_length : Nat) : List Char :=
  if text.length ≤ max_length then text
  else
    let effective_max := max_length - TRUNCATION_SUFFIX.length
    let truncated := text.take effective_max
    let last_para := rfind ['\n', '\n'] truncated
    if (effective_max : Int) < 2 * last_para then
      pyStrip (truncated.take last_para.toNat) ++ TRUNCATION_SUFFIX
    else
      let last_sentence := maxInt (rfind ['.', ' '] truncated)
        [rfind ['.', '\n'] truncated, rfind ['?', ' '] truncated, rfind ['?', '\n'] truncated,
         rfind ['!', ' '] truncated, rfind ['!', '\n'] truncated]
      if (effective_max : Int) < 2 * last_sentence then
        pyStrip (truncated.take (last_sentence + 1).toNat) ++ TRUNCATION_SUFFIX
      else
        let last_space := rfind [' '] truncated
        if (7 * effective_max : Int) < 10 * last_space then
          pyStrip (truncated.take last_space.toNat) ++ TRUNCATION_SUFFIX
        else
          pyStrip truncated ++ TRUNCATION_SUFFIX

/-- The final stage of `LLMService._clean_response` (lines 577-586):
collapse runs of 3+ newlines, strip, and truncate when longer than
`max_length`. The regex pleasantry/markdown substitutions that precede it
(lines 554-575) are plain string-to-string rewrites, so theorems about
this stage quantify over every possible intermediate text and hence cover
`_clean_response` on every raw input. -/
def cleanFinalize (text : List Char) (max_length : Nat) : List Char :=
  let cleaned := pyStrip (collapseBlank text)
  if max_length < cleaned.length then truncateSafely cleaned max_length else cleaned

/-! ## Prompt validation (llm.py lines 265-271, 441-473) -/

def classWsBangDot (c : Char) : Bool := pyWs c || c = '!' || c = '.'

def restClass (l : List Char) : Bool := l.all classWsBangDot

/-- Consume a literal word at the front. -/
def dropLit (w : List Char) (l : List Char) : Option (List Char) :=
  if w.isPrefixOf l then some (l.drop w.length) else none

/-- Consume `\s+` (one or more whitespace characters; the following
tokens in all five patterns start with non-whitespace, so the greedy
match is exact). -/
def dropWs1 : List Char → Option (List Char)
  | [] => none
  | c :: t => if pyWs c then some ((c :: t).dropWhile pyWs) else none

def matchSeq : List (List Char → Option (List Char)) → List Char → Option (List Char)
  | [], l => some l
  | f :: fs, l =>
    match f l with
    | some r => matchSeq fs r
    | none => none

/-- `^(hi|hello|hey)[\s!.]*$`. -/
def vagueGreeting (l : List Char) : Bool :=
  ["hi", "hello", "hey"].any fun w =>
    match dropLit w.data l with
    | some r => restClass r
    | none => false

/-- `^what\s+do\s+you\s+think\??$`. -/
def vagueWhatThink (l : List Char) : Bool :=
  match matchSeq [dropLit "what".data, dropWs1, dropLit "do".data, dropWs1,
                  dropLit "you".data, dropWs1, dropLit "think".data] l with
  | some r => r = [] || r = ['?']
  | none => false

/-- `^tell\s+me\s+(something|anything)` (prefix match). -/
def vagueTellMe (l : List Char) : Bool :=
  match matchSeq [dropLit "tell".data, dropWs1, dropLit "me".data, dropWs1] l with
  | some r => (dropLit "something".data r).isSome || (dropLit "anything".data r).isSome
  | none => false

/-- `^(help|help\s+me)[\s!.]*$`. -/
def vagueHelp (l : List Char) : Bool :=
  match dropLit "help".data l with
  | some r =>
    restClass r ||
      (match matchSeq [dropWs1, dropLit "me".data] r with
       | some r2 => restClass r2
       | none => false)
  | none => false

/-- `^(idk|dunno|not\s+sure)` (prefix match). -/
def vagueIdk (l : List Char) : Bool :=
  (dropLit "idk".data l).isSome || (dropLit "dunno".data l).isSome ||
    (matchSeq [dropLit "not".data, dropWs1, dropLit "sure".data] l).isSome

/-- `VAGUE_PATTERNS`: `re.match` of any of the five patterns. -/
def isVague (s : String) : Bool :=
  vagueGreeting s.data || vagueWhatThink s.data || vagueTellMe s.data ||
    vagueHelp s.data || vagueIdk s.data

/-- `LLMService.validate_prompt`: the raised `PromptValidationError`
message, or `none` when the prompt passes all guardrails. -/
def validatePrompt (prompt : String) : Option String :=
  if prompt = "" ∨ pyStripStr prompt = "" then some "Prompt cannot be empty."
  else
    let c := pyStripStr prompt
    if c.length < MIN_PROMPT_LENGTH then
      some ("Prompt too short. Minimum " ++ toString MIN_PROMPT_LENGTH ++ " characters required.")
    else if MAX_PROMPT_LENGTH < c.length then
      some ("Prompt exceeds maximum length of " ++ toString MAX_PROMPT_LENGTH ++ " characters.")
    else if isVague (lowerStr c) then
      some "Prompt is too vague. Please provide a specific question or task."
    else none

/-! ## Prompt templates (llm.py lines 52-198) and build_prompt (506-528) -/

/-- The `PromptTemplate` enumeration. -/
inductive Template where
  | SYSTEM_BASE
  | PATTERN_ANALYSIS
  | CALIBRATION_CHECK
  | GAP_IDENTIFICATION
  | THINKING_ANALYSIS
  | SESSION_SUMMARY
  | INSIGHT_CARD
  | ANALYZE
  | EVALUATE
  | EXPLAIN
deriving DecidableEq

/-- The value of `PromptTemplate.SYSTEM_BASE`. -/
def SYSTEM_BASE_text : String :=
  "You are the analytical engine of Skepesis, a metacognitive learning platform.\n\nYOUR ROLE:\nYou provide cognitive analysis - objective observations about thinking patterns, knowledge gaps, and learning calibration. You are NOT a tutor, coach, or assistant.\n\nVOICE:\n- Clinical and observational, like a diagnostic report\n- Third-person perspective when discussing the learner\n- Present findings as data points, not advice\n- Neutral and non-judgmental\n\nOUTPUT STYLE:\n- Brief, scannable bullet points\n- Single short paragraphs for conclusions\n- No greetings, sign-offs, or pleasantries\n- No questions back to the user\n- No encouragement or motivation\n\nFORBIDDEN:\n- \"Great job\", \"Well done\", \"Keep it up\"\n- \"You should\", \"I recommend\", \"Try to\"\n- \"Let me explain\", \"Here\x27s what I think\"\n- Emojis, exclamation marks, casual language\n- Rhetorical questions or engagement hooks\n\nREMEMBER: You generate insight cards, not conversations."

/-- Template text before the prompt placeholder. -/
def templatePre : Template → String
  | .SYSTEM_BASE => SYSTEM_BASE_text
  | .PATTERN_ANALYSIS => "Analyze this learning performance data:\n\n"
  | .CALIBRATION_CHECK => "Assess confidence calibration from this data:\n\n"
  | .GAP_IDENTIFICATION => "Identify knowledge gaps from this quiz performance:\n\n"
  | .THINKING_ANALYSIS => "Analyze response timing patterns:\n\n"
  | .SESSION_SUMMARY => "Summarize this quiz session:\n\n"
  | .INSIGHT_CARD => "Generate a single learning insight from:\n\n"
  | .ANALYZE => "Analyze the following:\n\n"
  | .EVALUATE => "Evaluate this:\n\n"
  | .EXPLAIN => "Explain:\n\n"

/-- Template text after the prompt placeholder. -/
def templatePost : Template → String
  | .SYSTEM_BASE => ""
  | .PATTERN_ANALYSIS => "\n\nProvide a cognitive pattern observation:\n- Primary pattern identified (one line)\n- Supporting evidence (2 bullet points)\n- Calibration note (one line)\n\nKeep total response under 80 words."
  | .CALIBRATION_CHECK => "\n\nReport:\n- Calibration status: [well-calibrated | overconfident | underconfident]\n- Evidence (2 bullet points)\n- Pattern implication (one line)\n\nKeep total response under 60 words."
  | .GAP_IDENTIFICATION => "\n\nList:\n- Primary gap area\n- Secondary gap (if evident)\n- Confidence-accuracy mismatch (if any)\n\nKeep total response under 50 words."
  | .THINKING_ANALYSIS => "\n\nObserve:\n- Thinking style: [quick/moderate/deliberate]\n- Consistency note\n- Speed-accuracy relationship\n\nKeep total response under 50 words."
  | .SESSION_SUMMARY => "\n\nProvide:\n- Performance snapshot (one line)\n- Notable pattern (one line)  \n- Calibration observation (one line)\n\nKeep total response under 40 words."
  | .INSIGHT_CARD => "\n\nFormat as one insight card:\n- Observation title (3-5 words)\n- Supporting detail (one sentence)\n\nKeep total response under 25 words."
  | .ANALYZE => "\n\nProvide:\n- Key observations (2-3 points)\n- Gaps or assumptions noted\n- Conclusion (1-2 sentences)\n\nKeep response concise."
  | .EVALUATE => "\n\nAssess:\n- Reasoning accuracy\n- Logical gaps\n- Brief verdict\n\nKeep response under 60 words."
  | .EXPLAIN => "\n\nStructure:\n- Core definition (1 sentence)\n- Key components\n- Common misconception (if any)\n\nKeep response under 80 words."

/-- `template.value.format(prompt=...)`: every task template has exactly
one `prompt` placeholder; `SYSTEM_BASE` has none, so formatting leaves it
unchanged. -/
def templateFormat (t : Template) (prompt : String) : String :=
  match t with
  | .SYSTEM_BASE => SYSTEM_BASE_text
  | t => templatePre t ++ prompt ++ templatePost t

/-- `LLMService.build_prompt`: returns `(system_prompt, formatted_prompt)`. -/
def buildPrompt (prompt : String) (template : Option Template) : String × String :=
  (SYSTEM_BASE_text,
   match template with
   | some t => if t = .SYSTEM_BASE then prompt else templateFormat t prompt
   | none => prompt)

/-! ## The generation gateway (llm.py lines 669-831) -/

/-- The downstream request body `_execute_generation` posts (the fields
the claims concern; the constant model identifier and `stream: false` flag
are omitted). -/
structure Payload where
  prompt : String
  system : String
  temperature : String
  num_predict : Nat
deriving DecidableEq

/-- The behaviour of the one downstream HTTP call of a `generate`
invocation, as decided by the environment. -/
inductive DownstreamOutcome where
  | ok (raw : String)
  | timedOut
  | connectError
  | statusError (code : Nat)
  | unexpected
deriving DecidableEq

/-- The exceptions `generate` can raise: `PromptValidationError` or
`LLMError`, each carrying its message. -/
inductive GenError where
  | promptValidation (msg : String)
  | llm (msg : String)
deriving DecidableEq

deriving instance DecidableEq for Except

def busyMsg : String := "Service busy. Please try again shortly."

def timeoutMsg : String := "Request timed out. The model may be overloaded."

def unavailableMsg : String := "LLM service unavailable."

def statusMsg (code : Nat) : String := "Service error: " ++ toString code

def unexpectedMsg : String := "An unexpected error occurred."

/-- Arguments of `LLMService.generate` (temperature by its decimal
rendering; see the header). -/
structure GenArgs where
  prompt : String
  system : Option String
  template : Option Template
  temperature : String
  max_tokens : Nat
  strip_markdown : Bool
  validate : Bool
  use_cache : Bool

/-- Mutable state a `generate` call touches: the shared response cache
and the free permits of the class-level semaphore. -/
structure GenState where
  cache : LRUCache
  semAvailable : Nat

/-- Environment of one call: the clock value and the downstream outcome. -/
structure GenEnv where
  now : Nat
  outcome : DownstreamOutcome

/-- Result of one call: the returned text or raised error, the state
after the call, and the downstream requests issued (in order). -/
structure GenResult where
  result : Except GenError String
  state : GenState
  calls : List Payload

/-- `(system, formatted_prompt)` as `generate` computes them (lines
709-713): a custom system prompt uses the sanitized prompt verbatim,
otherwise `build_prompt` is applied. -/
def genParts (sanitized : String) (system : Option String) (template : Option Template) :
    String × String :=
  match system with
  | none => buildPrompt sanitized template
  | some s => (s, sanitized)

/-- The cache key `generate` computes for a request (lines 718-723). -/
def genKey (sanitize : String → String) (args : GenArgs) : String :=
  let parts := genParts (sanitize args.prompt) args.system args.template
  LRUCache.make_key parts.2 parts.1 args.temperature (min args.max_tokens MAX_OUTPUT_TOKENS)

/-- `_execute_generation` under the acquired permit (lines 745-757 and
759-831). The `try/finally` releases the permit on every path, so the
final free-permit count equals the entry count; a failing cache `set`
(only possible with `max_size = 0`) is swallowed by the
`except Exception` arm as an unexpected error. -/
def acquireAndRun (clean : String → Bool → String) (formatted system temperature : String)
    (effMax : Nat) (stripMd : Bool) (key? : Option String) (env : GenEnv)
    (cache : LRUCache) (sem : Nat) : GenResult :=
  if sem = 0 then ⟨.error (.llm busyMsg), ⟨cache, sem⟩, []⟩
  else
    let payload : Payload := ⟨formatted, system, temperature, effMax⟩
    match env.outcome with
    | .ok raw =>
      let cleaned := clean raw stripMd
      match key? with
      | some k =>
        match cache.set k cleaned env.now with
        | some c2 => ⟨.ok cleaned, ⟨c2, sem⟩, [payload]⟩
        | none => ⟨.error (.llm unexpectedMsg), ⟨cache, sem⟩, [payload]⟩
      | none => ⟨.ok cleaned, ⟨cache, sem⟩, [payload]⟩
    | .timedOut => ⟨.error (.llm timeoutMsg), ⟨cache, sem⟩, [payload]⟩
    | .connectError => ⟨.error (.llm unavailableMsg), ⟨cache, sem⟩, [payload]⟩
    | .statusError code => ⟨.error (.llm (statusMsg code)), ⟨cache, sem⟩, [payload]⟩
    | .unexpected => ⟨.error (.llm unexpectedMsg), ⟨cache, sem⟩, [payload]⟩

/-- `LLMService.generate` (lines 669-757), sequential semantics of one
call. `sanitize` is `sanitize_input` and `clean` is `_clean_response`:
both are pure string functions whose bodies the claims here do not
depend on, so they are passed as parameters (the truncation tail of
`_clean_response` is modelled concretely as `cleanFinalize` above).
A permit is available exactly when `semAvailable > 0`; with no permit
free, a lone sequential call exhausts the queue wait and raises the
busy error. -/
def generate (sanitize : String → String) (clean : String → Bool → String)
    (args : GenArgs) (env : GenEnv) (st : GenState) : GenResult :=
  match (if args.validate then validatePrompt args.prompt else none) with
  | some msg => ⟨.error (.promptValidation msg), st, []⟩
  | none =>
    let parts := genParts (sanitize args.prompt) args.system args.template
    let effMax := min args.max_tokens MAX_OUTPUT_TOKENS
    if args.use_cache then
      let key := LRUCache.make_key parts.2 parts.1 args.temperature effMax
      let gr := st.cache.get key env.now
      match gr.1 with
      | some v => ⟨.ok v, ⟨gr.2, st.semAvailable⟩, []⟩
      | none =>
        acquireAndRun clean parts.2 parts.1 args.temperature effMax args.strip_markdown
          (some key) env gr.2 st.semAvailable
    else
      acquireAndRun clean parts.2 parts.1 args.temperature effMax args.strip_markdown
        none env st.cache st.semAvailable

/-! ## The concurrency gate (llm.py lines 399-404, 732-757)

An interleaving model of any number of simultaneous `generate` calls
competing for the class-level `asyncio.Semaphore`. Each task that missed
the cache is `ready` to acquire; `acquire` consumes a free permit,
`queueTimedOut` models `asyncio.wait_for` expiring while queued, and
`finish` covers both the successful return and every raised downstream
error - the `try/finally` releases the permit on both. A task that hit
the cache completes without touching the semaphore (`cacheDone`). -/

inductive TaskPhase where
  | ready
  | running
  | done
  | failed
  | busyFailed
deriving DecidableEq

structure SemSys where
  tasks : List TaskPhase
  avail : Nat
deriving DecidableEq

/-- `n` concurrent requests against a semaphore of `s` permits. -/
def initSys (s n : Nat) : SemSys := ⟨List.replicate n .ready, s⟩

/-- Number of tasks currently holding a permit (i.e. with a downstream
call in flight). -/
def runningCount (l : List TaskPhase) : Nat :=
  l.countP (fun t => t = TaskPhase.running)

inductive SemStep : SemSys → SemSys → Prop where
  | acquire (s : SemSys) (i : Nat) (h : s.tasks.get? i = some .ready) (ha : 0 < s.avail) :
      SemStep s ⟨s.tasks.set i .running, s.avail - 1⟩
  | queueTimedOut (s : SemSys) (i : Nat) (h : s.tasks.get? i = some .ready) :
      SemStep s ⟨s.tasks.set i .busyFailed, s.avail⟩
  | cacheDone (s : SemSys) (i : Nat) (h : s.tasks.get? i = some .ready) :
      SemStep s ⟨s.tasks.set i .done, s.avail⟩
  | finish (s : SemSys) (i : Nat) (ok : Bool) (h : s.tasks.get? i = some .running) :
      SemStep s ⟨s.tasks.set i (if ok then .done else .failed), s.avail + 1⟩

inductive SemReach (init : SemSys) : SemSys → Prop where
  | refl : SemReach init init
  | step {s s' : SemSys} : SemReach init s → SemStep s s' → SemReach init s'

/-! ## Spec-side predicates used to state the claims -/

/-- The claim-side condition of C8: the prompt (trimmed, as the code
measures it) is empty/whitespace, shorter than the minimum length, longer
than the maximum length, or matches a too-vague pattern. -/
def invalidPromptSpec (p : String) : Prop :=
  pyStripStr p = "" ∨ (pyStripStr p).length < MIN_PROMPT_LENGTH ∨
    MAX_PROMPT_LENGTH < (pyStripStr p).length ∨ isVague (lowerStr (pyStripStr p)) = true

instance (p : String) : Decidable (invalidPromptSpec p) := by
  unfold invalidPromptSpec
  infer_instance

/-- Guard for C1: the entry currently cached under `k` (if any) is still
within its TTL at time `now`. -/
def entryFresh (c : LRUCache) (k : String) (now : Nat) : Bool :=
  match assocFind c.entries k with
  | some e => now ≤ e.created_at + c.ttl
  | none => true

/-- A paragraph break starts at position `q` of the truncated text and
lies in the tail 50% of the effective length (the code threshold
`q > eff * 0.5`). -/
def paraHit (tr : List Char) (eff q : Nat) : Prop :=
  ['\n', '\n'].isPrefixOf (tr.drop q) = true ∧ eff < 2 * q

def sentPats : List (List Char) :=
  [['.', ' '], ['.', '\n'], ['?', ' '], ['?', '\n'], ['!', ' '], ['!', '\n']]

/-- Sentence-ending punctuation at position `q`, in the tail 50%. -/
def sentHit (tr : List Char) (eff q : Nat) : Prop :=
  (∃ pat ∈ sentPats, pat.isPrefixOf (tr.drop q) = true) ∧ eff < 2 * q

/-- A space at position `q`, past the 70% threshold of the code. -/
def spaceHit (tr : List Char) (eff q : Nat) : Prop :=
  tr.get? q = some ' ' ∧ 7 * eff < 10 * q

/-- The output is a word-boundary cut of the truncated text `tr`: the
retained prefix ends right before a space of `tr`. -/
def wordBoundaryCut (tr out : List Char) : Prop :=
  ∃ p, p < tr.length ∧ tr.get? p = some ' ' ∧ out = pyStrip (tr.take p) ++ TRUNCATION_SUFFIX

/-- Effective cut length of `_truncate_safely` (space reserved for the
truncation marker). -/
def effLen (maxL : Nat) : Nat := maxL - TRUNCATION_SUFFIX.length

/-- The prefix `_truncate_safely` works on once `_clean_response` has
collapsed blank lines and stripped the text: `truncated = text[:effective_max]`. -/
def truncBase (text : List Char) (maxL : Nat) : List Char :=
  (pyStrip (collapseBlank text)).take (effLen maxL)

/-! ## Association-list lemmas -/

theorem assocFind_append_of_none {l1 l2 : List (String × CacheEntry)} {k : String}
    (h : assocFind l1 k = none) : assocFind (l1 ++ l2) k = assocFind l2 k := by
  induction l1 with
  | nil => simp
  | cons x t ih =>
    obtain ⟨k', e⟩ := x
    by_cases hk : k' = k
    · simp [assocFind, hk] at h
    · simp [assocFind, hk] at h ⊢
      exact ih h

theorem assocFind_append_of_some {l1 l2 : List (String × CacheEntry)} {k : String}
    {e : CacheEntry} (h : assocFind l1 k = some e) : assocFind (l1 ++ l2) k = some e := by
  induction l1 with
  | nil => simp [assocFind] at h
  | cons x t ih =>
    obtain ⟨k', e'⟩ := x
    by_cases hk : k' = k
    · simp [assocFind, hk] at h ⊢
      exact h
    · simp [assocFind, hk] at h ⊢
      exact ih h

theorem assocFind_eq_none_iff {l : List (String × CacheEntry)} {k : String} :
    assocFind l k = none ↔ k ∉ l.map Prod.fst := by
  induction l with
  | nil => simp [assocFind]
  | cons x t ih =>
    obtain ⟨k', e⟩ := x
    rw [List.map_cons]
    by_cases hk : k' = k
    · constructor
      · intro h
        rw [show assocFind ((k', e) :: t) k = some e by
          simp only [assocFind, if_pos hk]] at h
        exact absurd h (by simp)
      · intro h
        subst hk
        exact absurd (List.mem_cons_self k' _) h
    · rw [show assocFind ((k', e) :: t) k = assocFind t k by
        simp only [assocFind, if_neg hk]]
      constructor
      · intro h hmem
        rcases List.mem_cons.mp hmem with h1 | h2
        · exact hk h1.symm
        · exact (ih.mp h) h2
      · intro h
        exact ih.mpr (fun h2 => h (List.mem_cons.mpr (Or.inr h2)))

theorem assocFind_isSome_of_mem {l : List (String × CacheEntry)} {k : String}
    (h : k ∈ l.map Prod.fst) : (assocFind l k).isSome := by
  cases hf : assocFind l k with
  | none => exact absurd (assocFind_eq_none_iff.mp hf) (by simpa using h)
  | some e => rfl

theorem eraseKey_length_le (l : List (String × CacheEntry)) (k : String) :
    (eraseKey l k).length ≤ l.length := by
  induction l with
  | nil => simp [eraseKey]
  | cons x t ih =>
    obtain ⟨k', e⟩ := x
    by_cases hk : k' = k
    · simp only [eraseKey, if_pos hk, List.length_cons]
      omega
    · simp only [eraseKey, if_neg hk, List.length_cons]
      omega

theorem eraseKey_length_of_found {l : List (String × CacheEntry)} {k : String}
    {e : CacheEntry} (h : assocFind l k = some e) :
    (eraseKey l k).length + 1 = l.length := by
  induction l with
  | nil => simp [assocFind] at h
  | cons x t ih =>
    obtain ⟨k', e'⟩ := x
    by_cases hk : k' = k
    · simp [eraseKey, hk]
    · simp [assocFind, hk] at h
      simp [eraseKey, hk]
      exact ih h

theorem eraseKey_find_none {l : List (String × CacheEntry)} {k : String}
    (hnd : (l.map Prod.fst).Nodup) : assocFind (eraseKey l k) k = none := by
  induction l with
  | nil => simp [eraseKey, assocFind]
  | cons x t ih =>
    obtain ⟨k', e⟩ := x
    rw [List.map_cons] at hnd
    obtain ⟨h1, h2⟩ := List.nodup_cons.mp hnd
    by_cases hk : k' = k
    · subst hk
      simp only [eraseKey, if_pos rfl]
      exact assocFind_eq_none_iff.mpr h1
    · simp only [eraseKey, if_neg hk, assocFind, if_neg hk]
      exact ih h2

theorem assocSet_find_self (l : List (String × CacheEntry)) (k : String) (e : CacheEntry) :
    assocFind (assocSet l k e) k = some e := by
  induction l with
  | nil => simp [assocSet, assocFind]
  | cons x t ih =>
    obtain ⟨k', e'⟩ := x
    by_cases hk : k' = k
    · simp [assocSet, hk, assocFind]
    · simp [assocSet, hk, assocFind, ih]

theorem assocSet_length_le (l : List (String × CacheEntry)) (k : String) (e : CacheEntry) :
    (assocSet l k e).length ≤ l.length + 1 := by
  induction l with
  | nil => simp [assocSet]
  | cons x t ih =>
    obtain ⟨k', e'⟩ := x
    by_cases hk : k' = k
    · simp [assocSet, hk]
    · simp [assocSet, hk]
      omega

theorem assocSet_of_not_found {l : List (String × CacheEntry)} {k : String}
    (e : CacheEntry) (h : assocFind l k = none) : assocSet l k e = l ++ [(k, e)] := by
  induction l with
  | nil => simp [assocSet]
  | cons x t ih =>
    obtain ⟨k', e'⟩ := x
    by_cases hk : k' = k
    · simp [assocFind, hk] at h
    · simp [assocFind, hk] at h
      simp [assocSet, hk, ih h]

theorem evictLoop_of_lt {m : Nat} {l : List (String × CacheEntry)}
    (h : l.length < m) : evictLoop m l = some l := by
  cases l with
  | nil =>
    have hm : ¬ m = 0 := by simp at h; omega
    simp only [evictLoop, if_neg hm]
  | cons x t =>
    have hm : ¬ (m ≤ (x :: t).length) := by omega
    simp only [evictLoop, if_neg hm]

theorem evictLoop_length {m : Nat} : ∀ {l l' : List (String × CacheEntry)},
    evictLoop m l = some l' → l'.length < m := by
  intro l
  induction l with
  | nil =>
    intro l' h
    by_cases hm : m = 0
    · rw [show evictLoop m [] = none by simp only [evictLoop, if_pos hm]] at h
      exact absurd h (by simp)
    · rw [show evictLoop m [] = some [] by simp only [evictLoop, if_neg hm]] at h
      cases h
      simp
      omega
  | cons x t ih =>
    intro l' h
    by_cases hm : m ≤ (x :: t).length
    · rw [show evictLoop m (x :: t) = evictLoop m t by simp only [evictLoop, if_pos hm]] at h
      exact ih h
    · rw [show evictLoop m (x :: t) = some (x :: t) by simp only [evictLoop, if_neg hm]] at h
      cases h
      omega

theorem evictLoop_full {l : List (String × CacheEntry)} {m : Nat}
    (hlen : l.length = m) (hm : 1 ≤ m) : evictLoop m l = some l.tail := by
  cases l with
  | nil => simp at hlen; omega
  | cons x t =>
    have h1 : m ≤ (x :: t).length := by omega
    have h2 : t.length < m := by simp at hlen; omega
    simp only [evictLoop, if_pos h1, List.tail_cons]
    exact evictLoop_of_lt h2

theorem evictLoop_suffix {m : Nat} : ∀ {l l' : List (String × CacheEntry)},
    evictLoop m l = some l' → l' <:+ l := by
  intro l
  induction l with
  | nil =>
    intro l' h
    by_cases hm : m = 0
    · rw [show evictLoop m [] = none by simp only [evictLoop, if_pos hm]] at h
      exact absurd h (by simp)
    · rw [show evictLoop m [] = some [] by simp only [evictLoop, if_neg hm]] at h
      cases h
      exact List.suffix_rfl
  | cons x t ih =>
    intro l' h
    by_cases hm : m ≤ (x :: t).length
    · rw [show evictLoop m (x :: t) = evictLoop m t by simp only [evictLoop, if_pos hm]] at h
      exact (ih h).trans (List.suffix_cons x t)
    · rw [show evictLoop m (x :: t) = some (x :: t) by simp only [evictLoop, if_neg hm]] at h
      cases h
      exact List.suffix_rfl

/-! ## Case equations for LRUCache.get -/

theorem get_of_find_none {c : LRUCache} {k : String} {now : Nat}
    (hf : assocFind c.entries k = none) :
    c.get k now = (none, { c with misses := c.misses + 1 }) := by
  simp only [LRUCache.get, hf]

theorem get_of_expired {c : LRUCache} {k : String} {now : Nat} {e : CacheEntry}
    (hf : assocFind c.entries k = some e) (hexp : e.created_at + c.ttl < now) :
    c.get k now =
      (none, { c with entries := eraseKey c.entries k, misses := c.misses + 1 }) := by
  simp only [LRUCache.get, hf, if_pos hexp]

theorem get_of_live {c : LRUCache} {k : String} {now : Nat} {e : CacheEntry}
    (hf : assocFind c.entries k = some e) (hexp : ¬ e.created_at + c.ttl < now) :
    c.get k now =
      (some e.response,
       { c with
          entries := eraseKey c.entries k ++ [(k, { e with hit_count := e.hit_count + 1 })],
          hits := c.hits + 1 }) := by
  simp only [LRUCache.get, hf, if_neg hexp]

/-! ## Claim C3: TTL expiry in LRUCache.get -/

/-- Claim C3: a `get` performed after the entry's age exceeds the TTL
returns absent, removes the entry from the store, and counts a miss; and
an entry older than TTL is never returned as a hit - any hit comes from
an entry still within its TTL (the `Nodup` hypothesis is the dictionary
invariant: an `OrderedDict` holds each key at most once). -/
theorem lru_get_ttl_expiry (c : LRUCache) (k : String) (now : Nat)
    (hnd : (c.entries.map Prod.fst).Nodup) :
    (∀ e, assocFind c.entries k = some e → e.created_at + c.ttl < now →
        (c.get k now).1 = none
        ∧ assocFind (c.get k now).2.entries k = none
        ∧ (c.get k now).2.misses = c.misses + 1)
    ∧ (∀ v, (c.get k now).1 = some v →
        ∃ e, assocFind c.entries k = some e ∧ now ≤ e.created_at + c.ttl ∧ v = e.response) := by
  constructor
  · intro e hf hexp
    rw [get_of_expired hf hexp]
    exact ⟨rfl, eraseKey_find_none hnd, rfl⟩
  · intro v hv
    cases hf : assocFind c.entries k with
    | none =>
      rw [get_of_find_none hf] at hv
      exact absurd hv (by simp)
    | some e =>
      by_cases hexp : e.created_at + c.ttl < now
      · rw [get_of_expired hf hexp] at hv
        exact absurd hv (by simp)
      · rw [get_of_live hf hexp] at hv
        simp at hv
        exact ⟨e, rfl, by omega, hv.symm⟩

/-- Witness for C3 at a concrete expired entry (created at 0, TTL 10,
read at time 100). -/
theorem lru_get_ttl_expiry_witness :
    ((⟨[("k", ⟨"v", 0, 0⟩)], 100, 10, 0, 0⟩ : LRUCache).get "k" 100).1 = none
    ∧ assocFind ((⟨[("k", ⟨"v", 0, 0⟩)], 100, 10, 0, 0⟩ : LRUCache).get "k" 100).2.entries "k" = none
    ∧ ((⟨[("k", ⟨"v", 0, 0⟩)], 100, 10, 0, 0⟩ : LRUCache).get "k" 100).2.misses =
        (⟨[("k", ⟨"v", 0, 0⟩)], 100, 10, 0, 0⟩ : LRUCache).misses + 1 :=
  (lru_get_ttl_expiry ⟨[("k", ⟨"v", 0, 0⟩)], 100, 10, 0, 0⟩ "k" 100 (by decide)).1
    ⟨"v", 0, 0⟩ (by decide) (by decide)

/-! ## Claim C4: the size never exceeds the configured maximum -/

theorem get_entries_le (c : LRUCache) (k : String) (now : Nat) :
    (c.get k now).2.entries.length ≤ c.entries.length
    ∧ (c.get k now).2.max_size = c.max_size := by
  cases hf : assocFind c.entries k with
  | none =>
    rw [get_of_find_none hf]
    exact ⟨Nat.le_refl _, rfl⟩
  | some e =>
    by_cases hexp : e.created_at + c.ttl < now
    · rw [get_of_expired hf hexp]
      exact ⟨eraseKey_length_le c.entries k, rfl⟩
    · rw [get_of_live hf hexp]
      refine ⟨?_, rfl⟩
      simp only [List.length_append, List.length_cons, List.length_nil]
      have := eraseKey_length_of_found hf
      omega

theorem set_entries_le {c c1 : LRUCache} {k v : String} {now : Nat}
    (h : c.set k v now = some c1) :
    c1.entries.length ≤ c.max_size ∧ c1.max_size = c.max_size := by
  simp only [LRUCache.set] at h
  cases he : evictLoop c.max_size c.entries with
  | none =>
    rw [he] at h
    simp at h
  | some l =>
    rw [he] at h
    simp at h
    have h1 := evictLoop_length he
    have h2 := assocSet_length_le l k ⟨v, now, 0⟩
    subst h
    constructor
    · simp only []
      omega
    · rfl

theorem runOps_invariant : ∀ (ops : List CacheOp) (c c' : LRUCache),
    c.entries.length ≤ c.max_size → runOps c ops = some c' →
    c'.entries.length ≤ c'.max_size ∧ c'.max_size = c.max_size := by
  intro ops
  induction ops with
  | nil =>
    intro c c' h hr
    simp only [runOps] at hr
    cases hr
    exact ⟨h, rfl⟩
  | cons op t ih =>
    intro c c' h hr
    simp only [runOps] at hr
    cases hap : applyOp c op with
    | none =>
      rw [hap] at hr
      simp at hr
    | some c1 =>
      rw [hap] at hr
      have h1 : c1.entries.length ≤ c1.max_size ∧ c1.max_size = c.max_size := by
        cases op with
        | get gk gn =>
          simp only [applyOp] at hap
          cases hap
          obtain ⟨ha, hb⟩ := get_entries_le c gk gn
          exact ⟨by omega, hb⟩
        | set sk sv sn =>
          simp only [applyOp] at hap
          obtain ⟨ha, hb⟩ := set_entries_le hap
          exact ⟨by omega, hb⟩
        | clear =>
          simp only [applyOp] at hap
          cases hap
          simp [LRUCache.clear]
      obtain ⟨ha, hb⟩ := h1
      obtain ⟨x, y⟩ := ih c1 c' ha hr
      exact ⟨x, y.trans hb⟩

/-- Claim C4: for every sequence of cache operations (get, set, clear)
starting from the empty cache, the number of stored entries never exceeds
the configured maximum size (a set whose eviction loop would fault -
only possible with `max_size = 0` - aborts the run, as in Python). -/
theorem lru_size_bounded (ops : List CacheOp) (m ttl : Nat) (c' : LRUCache)
    (h : runOps (LRUCache.empty m ttl) ops = some c') :
    c'.entries.length ≤ m := by
  obtain ⟨h1, h2⟩ :=
    runOps_invariant ops (LRUCache.empty m ttl) c' (by simp [LRUCache.empty]) h
  simp only [LRUCache.empty] at h2
  omega

/-- Witness for C4: a 4-operation run against a capacity-1 cache. -/
theorem lru_size_bounded_witness :
    (⟨[], 1, 300, 0, 1⟩ : LRUCache).entries.length ≤ 1 :=
  lru_size_bounded [.set "a" "x" 1, .set "b" "y" 2, .get "a" 3, .clear] 1 300
    ⟨[], 1, 300, 0, 1⟩ (by decide)

/-! ## Claim C2: LRU insertion/eviction discipline of set -/

/-- Claim C2 counterexample: with capacity 3, after `set a; set b; set c`
the store is full; a fourth `set b` merely overwrites an existing key -
by the claim it would become most-recently-used and "eviction happens
only when inserting would exceed capacity", so all three keys would stay
present. The code instead runs the eviction loop first (`len >= max`)
and evicts the least-recently-used "a", and the overwrite keeps "b" in
its old position. -/
theorem lru_set_c2_counterexample :
    insertAll (LRUCache.empty 3 300) ["a", "b", "c", "b"] 10 =
      some ⟨[("b", ⟨"b", 10, 0⟩), ("c", ⟨"c", 10, 0⟩)], 3, 300, 0, 0⟩
    ∧ assocFind [("b", (⟨"b", 10, 0⟩ : CacheEntry)), ("c", ⟨"c", 10, 0⟩)] "a" = none := by
  exact ⟨by decide, by decide⟩

theorem set_fresh_appends (c : LRUCache) (k v : String) (now : Nat)
    (hf : assocFind c.entries k = none) (hlen : c.entries.length < c.max_size) :
    c.set k v now = some { c with entries := c.entries ++ [(k, ⟨v, now, 0⟩)] } := by
  simp only [LRUCache.set, evictLoop_of_lt hlen, assocSet_of_not_found _ hf]

theorem insertAll_fresh : ∀ (ks : List String) (c : LRUCache) (now : Nat),
    ks.Nodup → (∀ k ∈ ks, assocFind c.entries k = none) →
    c.entries.length + ks.length ≤ c.max_size →
    insertAll c ks now =
      some { c with entries := c.entries ++ ks.map (fun k => (k, ⟨k, now, 0⟩)) } := by
  intro ks
  induction ks with
  | nil =>
    intro c now _ _ _
    simp [insertAll]
  | cons k t ih =>
    intro c now hnd hfresh hlen
    have hf : assocFind c.entries k = none := hfresh k (List.mem_cons_self k t)
    have hlt : c.entries.length < c.max_size := by
      simp only [List.length_cons] at hlen
      omega
    obtain ⟨hk, hndt⟩ := List.nodup_cons.mp hnd
    simp only [insertAll, set_fresh_appends c k k now hf hlt]
    rw [ih { c with entries := c.entries ++ [(k, ⟨k, now, 0⟩)] } now hndt ?fresh ?len]
    case fresh =>
      intro k' hk'
      have h1 : assocFind c.entries k' = none := hfresh k' (List.mem_cons_of_mem k hk')
      rw [assocFind_append_of_none h1]
      have : ¬ k = k' := fun h => hk (h ▸ hk')
      simp [assocFind, this]
    case len =>
      simp only [List.length_append, List.length_cons, List.length_nil]
      simp only [List.length_cons] at hlen
      omega
    simp only [List.append_assoc, List.map_cons, List.cons_append, List.nil_append]

theorem insertAll_append (c : LRUCache) (xs ys : List String) (now : Nat) :
    insertAll c (xs ++ ys) now =
      (insertAll c xs now).bind (fun c1 => insertAll c1 ys now) := by
  induction xs generalizing c with
  | nil => simp [insertAll]
  | cons x t ih =>
    simp only [List.cons_append, insertAll]
    cases c.set x x now with
    | none => simp
    | some c1 => simp [ih c1]

theorem map_fst_mkEntries (l : List String) (now : Nat) :
    (l.map (fun k => (k, (⟨k, now, 0⟩ : CacheEntry)))).map Prod.fst = l := by
  induction l with
  | nil => rfl
  | cons x t ih => simp [ih]

/-- Claim C2, amended: `set` inserts a fresh key as most-recently-used,
but overwrites an existing key in place (the position is unchanged); the
eviction loop removes the least-recently-used entry whenever the store is
at capacity on entry to `set`, even for an overwrite; and, as the claim
states, inserting N+1 distinct keys into an empty capacity-N cache
leaves exactly the first (least-recently-used) key absent and all others
present. -/
theorem lru_set_amended :
    (∀ (c : LRUCache) (k v : String) (now : Nat),
        assocFind c.entries k = none → c.entries.length < c.max_size →
        c.set k v now = some { c with entries := c.entries ++ [(k, ⟨v, now, 0⟩)] })
    ∧ (∀ (c : LRUCache) (k v : String) (now : Nat),
        (assocFind c.entries k).isSome → c.entries.length < c.max_size →
        c.set k v now = some { c with entries := assocSet c.entries k ⟨v, now, 0⟩ })
    ∧ (∀ (N : Nat) (k : String) (rest : List String) (now : Nat),
        rest.length = N → 1 ≤ N → (k :: rest).Nodup →
        ∃ c', insertAll (LRUCache.empty N CACHE_TTL) (k :: rest) now = some c'
          ∧ assocFind c'.entries k = none
          ∧ ∀ k' ∈ rest, (assocFind c'.entries k').isSome) := by
  refine ⟨fun c k v now hf hlen => set_fresh_appends c k v now hf hlen,
          fun c k v now _ hlen => ?inplace, ?main⟩
  case inplace =>
    simp only [LRUCache.set, evictLoop_of_lt hlen]
  case main =>
    intro N k rest now hlen hN hnd
    have hne : rest ≠ [] := by
      intro h
      rw [h] at hlen
      simp at hlen
      omega
    obtain ⟨hkrest, hndrest⟩ := List.nodup_cons.mp hnd
    have hsplit : rest.dropLast ++ [rest.getLast hne] = rest :=
      List.dropLast_append_getLast hne
    have hnddl : (k :: rest.dropLast).Nodup := by
      refine List.nodup_cons.mpr ⟨?_, ?_⟩
      · exact fun h => hkrest ((List.dropLast_sublist rest).subset h)
      · exact (List.dropLast_sublist rest).nodup hndrest
    have hndsplit : (rest.dropLast ++ [rest.getLast hne]).Nodup := by
      rw [hsplit]
      exact hndrest
    have hlastnot : rest.getLast hne ∉ rest.dropLast := by
      obtain ⟨-, -, hdisj⟩ := List.nodup_append.mp hndsplit
      intro hmem
      exact hdisj hmem (List.mem_singleton_self _)
    have hlendl : rest.dropLast.length = N - 1 := by
      rw [List.length_dropLast, hlen]
    have hfill := insertAll_fresh (k :: rest.dropLast) (LRUCache.empty N CACHE_TTL) now
      hnddl (fun k' _ => by simp [LRUCache.empty, assocFind])
      (by simp only [LRUCache.empty, List.length_nil, List.length_cons, hlendl]; omega)
    -- the filled cache after the first N inserts
    have hfillLen :
        (((k :: rest.dropLast).map (fun k' => (k', (⟨k', now, 0⟩ : CacheEntry))))).length = N := by
      simp only [List.length_map, List.length_cons, hlendl]
      omega
    have hev : evictLoop N ((k :: rest.dropLast).map (fun k' => (k', (⟨k', now, 0⟩ : CacheEntry))))
        = some (rest.dropLast.map (fun k' => (k', (⟨k', now, 0⟩ : CacheEntry)))) := by
      rw [evictLoop_full hfillLen hN]
      simp
    have hfr : assocFind (rest.dropLast.map (fun k' => (k', (⟨k', now, 0⟩ : CacheEntry))))
        (rest.getLast hne) = none := by
      refine assocFind_eq_none_iff.mpr ?_
      rw [map_fst_mkEntries]
      exact hlastnot
    refine ⟨⟨rest.dropLast.map (fun k' => (k', ⟨k', now, 0⟩)) ++
        [(rest.getLast hne, ⟨rest.getLast hne, now, 0⟩)], N, CACHE_TTL, 0, 0⟩,
      ?goal1, ?goal2, ?goal3⟩
    case goal1 =>
      conv_lhs => rw [show k :: rest = (k :: rest.dropLast) ++ [rest.getLast hne] from by
        rw [List.cons_append, hsplit]]
      rw [insertAll_append, hfill, Option.some_bind]
      simp only [insertAll, LRUCache.set, LRUCache.empty, List.nil_append, hev,
        assocSet_of_not_found _ hfr]
    case goal2 =>
      refine assocFind_eq_none_iff.mpr ?_
      rw [show (rest.dropLast.map (fun k' => (k', (⟨k', now, 0⟩ : CacheEntry))) ++
            [(rest.getLast hne, (⟨rest.getLast hne, now, 0⟩ : CacheEntry))]).map Prod.fst =
          rest.dropLast ++ [rest.getLast hne] from by
        rw [List.map_append, map_fst_mkEntries]
        rfl]
      rw [hsplit]
      exact hkrest
    case goal3 =>
      intro k' hk'
      apply assocFind_isSome_of_mem
      rw [show (rest.dropLast.map (fun k'' => (k'', (⟨k'', now, 0⟩ : CacheEntry))) ++
            [(rest.getLast hne, (⟨rest.getLast hne, now, 0⟩ : CacheEntry))]).map Prod.fst =
          rest.dropLast ++ [rest.getLast hne] from by
        rw [List.map_append, map_fst_mkEntries]
        rfl]
      rw [hsplit]
      exact hk'

/-- Witness for C2 (amended): a fresh insert below capacity appends at
the most-recently-used end. -/
theorem lru_set_amended_witness :
    (⟨[("a", ⟨"x", 5, 0⟩)], 5, 300, 0, 0⟩ : LRUCache).set "b" "y" 7 =
      some ⟨[("a", ⟨"x", 5, 0⟩), ("b", ⟨"y", 7, 0⟩)], 5, 300, 0, 0⟩ :=
  lru_set_amended.1 ⟨[("a", ⟨"x", 5, 0⟩)], 5, 300, 0, 0⟩ "b" "y" 7 (by decide) (by decide)

/-! ## Claim C7: the concurrency gate bounds in-flight downstream calls -/

theorem countP_set_eq (l : List TaskPhase) (i : Nat) (a v : TaskPhase)
    (p : TaskPhase → Bool) (h : l.get? i = some a) :
    (l.set i v).countP p + (if p a then 1 else 0) = l.countP p + (if p v then 1 else 0) := by
  induction l generalizing i with
  | nil => simp at h
  | cons x t ih =>
    cases i with
    | zero =>
      simp only [List.get?_cons_zero, Option.some.injEq] at h
      subst h
      simp only [List.set_cons_zero, List.countP_cons]
      omega
    | succ j =>
      simp only [List.get?_cons_succ] at h
      simp only [List.set_cons_succ, List.countP_cons]
      have := ih j h
      omega

theorem semStep_preserves (S : Nat) {s s' : SemSys} (hs : SemStep s s')
    (ih : s.avail + runningCount s.tasks = S) :
    s'.avail + runningCount s'.tasks = S := by
  cases hs with
  | acquire i h ha =>
    have hc := countP_set_eq s.tasks i .ready .running
      (fun t => t = TaskPhase.running) h
    simp only [runningCount] at ih ⊢
    simp at hc
    omega
  | queueTimedOut i h =>
    have hc := countP_set_eq s.tasks i .ready .busyFailed
      (fun t => t = TaskPhase.running) h
    simp only [runningCount] at ih ⊢
    simp at hc
    omega
  | cacheDone i h =>
    have hc := countP_set_eq s.tasks i .ready .done
      (fun t => t = TaskPhase.running) h
    simp only [runningCount] at ih ⊢
    simp at hc
    omega
  | finish i ok h =>
    have hc := countP_set_eq s.tasks i .running (if ok then .done else .failed)
      (fun t => t = TaskPhase.running) h
    simp only [runningCount] at ih ⊢
    have hv : (if ok then TaskPhase.done else TaskPhase.failed) ≠ TaskPhase.running := by
      cases ok <;> simp
    simp [hv] at hc
    omega

theorem semReach_inv (S n : Nat) (s : SemSys) (h : SemReach (initSys S n) s) :
    s.avail + runningCount s.tasks = S := by
  induction h with
  | refl =>
    have h0 : runningCount (initSys S n).tasks = 0 := by
      simp only [initSys, runningCount]
      apply List.countP_eq_zero.mpr
      intro a ha
      rw [List.eq_of_mem_replicate ha]
      simp
    simp only [initSys] at h0 ⊢
    omega
  | step hr hs ih => exact semStep_preserves S hs ih

/-- Claim C7: in every state reachable by any number of interleaved
`generate` calls against a semaphore of S permits, the free permits plus
the tasks holding a permit (downstream calls in flight) always total S -
so at most S downstream calls execute at any instant, and since `finish`
covers both the success and the error return (the `try/finally` release),
permits never leak: when no task is running the S permits are all free. -/
theorem semaphore_bound (S n : Nat) (s : SemSys) (h : SemReach (initSys S n) s) :
    s.avail + runningCount s.tasks = S ∧ runningCount s.tasks ≤ S := by
  have main := semReach_inv S n s h
  exact ⟨main, by omega⟩

/-- Witness for C7 after one concrete acquire step (2 permits, 3 tasks). -/
theorem semaphore_bound_witness :
    (⟨[TaskPhase.running, .ready, .ready], 1⟩ : SemSys).avail +
        runningCount (⟨[TaskPhase.running, .ready, .ready], 1⟩ : SemSys).tasks = 2
    ∧ runningCount (⟨[TaskPhase.running, .ready, .ready], 1⟩ : SemSys).tasks ≤ 2 :=
  semaphore_bound 2 3 ⟨[TaskPhase.running, .ready, .ready], 1⟩
    (SemReach.step SemReach.refl
      (by
        have := SemStep.acquire (initSys 2 3) 0 (by decide) (by decide)
        simpa [initSys] using this))

/-! ## Claim C5: the cache-key digest -/

/-- Claim C5 counterexample: the key is the hash of the `"|"`-joined
rendering, so two distinct requests whose joined renderings coincide get
the same key: prompt `"a|b"` with system `"c"` collides with prompt
`"a"` with system `"b|c"` (both render as `"a|b|c|0.3|512"`), refuting
"no two distinct requests yield the same key". -/
theorem make_key_c5_counterexample :
    (("a|b", "c") ≠ (("a", "b|c") : String × String))
    ∧ LRUCache.make_key "a|b" "c" "0.3" 512 = LRUCache.make_key "a" "b|c" "0.3" 512 := by
  constructor
  · decide
  · rfl

/-- Claim C5, amended: the cache key is a deterministic digest of the
joined rendering of (formatted_prompt, system_prompt, temperature,
max_tokens) - equal renderings give equal keys - and, as in the spec
scenario, two requests differing only in temperature (0.3 vs 0.7)
produce different cache keys; but distinct requests may collide when
their joined renderings coincide (see the counterexample). -/
theorem make_key_amended :
    (∀ (p1 s1 t1 : String) (m1 : Nat) (p2 s2 t2 : String) (m2 : Nat),
        LRUCache.keyContent p1 s1 t1 m1 = LRUCache.keyContent p2 s2 t2 m2 →
        LRUCache.make_key p1 s1 t1 m1 = LRUCache.make_key p2 s2 t2 m2)
    ∧ LRUCache.make_key "What is gravity" "sys" "0.3" 512 ≠
        LRUCache.make_key "What is gravity" "sys" "0.7" 512 := by
  constructor
  · intro p1 s1 t1 m1 p2 s2 t2 m2 h
    unfold LRUCache.make_key
    rw [h]
  · decide

/-- Witness for C5 (amended), first conjunct: the concrete collision pair
has equal joined renderings, hence equal keys. -/
theorem make_key_amended_witness :
    LRUCache.make_key "x|y" "z" "0.3" 1 = LRUCache.make_key "x" "y|z" "0.3" 1 :=
  make_key_amended.1 "x|y" "z" "0.3" 1 "x" "y|z" "0.3" 1 (by decide)

/-! ## Claim C6: queue-wait timeout yields the busy error, pre-downstream -/

/-- Claim C6: when no concurrency permit can be acquired within the
queue-wait window (no permit is free), `generate` fails with the
"service busy" `LLMError` and issues no downstream call; and the busy
message is distinct from each downstream failure message (connect
failure, read timeout, non-success status, unexpected error). -/
theorem generate_busy_no_downstream
    (sanitize : String → String) (clean : String → Bool → String)
    (args : GenArgs) (env : GenEnv) (st : GenState)
    (hsem : st.semAvailable = 0)
    (hval : args.validate = true → validatePrompt args.prompt = none)
    (hmiss : args.use_cache = true → (st.cache.get (genKey sanitize args) env.now).1 = none) :
    (generate sanitize clean args env st).result = Except.error (.llm busyMsg)
    ∧ (generate sanitize clean args env st).calls = []
    ∧ busyMsg ≠ timeoutMsg ∧ busyMsg ≠ unavailableMsg
    ∧ (∀ code, busyMsg ≠ statusMsg code) ∧ busyMsg ≠ unexpectedMsg := by
  have hv : (if args.validate then validatePrompt args.prompt else none) = none := by
    cases hva : args.validate
    · simp
    · simp [hval hva]
  have hstat : ∀ code, busyMsg ≠ statusMsg code := by
    intro code h
    have hd : busyMsg.data = (statusMsg code).data := congrArg String.data h
    have h8 : (statusMsg code).data.get? 8 = some 'e' := by
      show (("Service error: " ++ toString code).data).get? 8 = some 'e'
      rw [String.data_append]
      simp only [List.get?_eq_getElem?,
        List.getElem?_append_left (show (8 : Nat) < "Service error: ".data.length by decide)]
      decide
    rw [← hd] at h8
    have hb : busyMsg.data.get? 8 = some 'b' := by decide
    rw [hb] at h8
    simp at h8
  cases huc : args.use_cache with
  | false =>
    simp only [generate, hv, huc, Bool.false_eq_true, if_false, acquireAndRun, hsem,
      if_pos rfl]
    exact ⟨by trivial, by trivial, by decide, by decide, hstat, by decide⟩
  | true =>
    have hm := hmiss huc
    simp only [genKey] at hm
    simp only [generate, hv, huc, if_true, hm, acquireAndRun, hsem, if_pos rfl]
    exact ⟨by trivial, by trivial, by decide, by decide, hstat, by decide⟩

/-- Witness for C6: a concrete call with no permit free (cache bypassed,
validation off, so the hypotheses hold vacuously or by computation). -/
theorem generate_busy_no_downstream_witness :
    (generate id (fun r _ => r)
        ⟨"a valid question", none, none, "0.3", 512, true, false, false⟩
        ⟨0, .ok "x"⟩ ⟨LRUCache.empty 100 300, 0⟩).result = Except.error (.llm busyMsg)
    ∧ (generate id (fun r _ => r)
        ⟨"a valid question", none, none, "0.3", 512, true, false, false⟩
        ⟨0, .ok "x"⟩ ⟨LRUCache.empty 100 300, 0⟩).calls = [] := by
  have h := generate_busy_no_downstream id (fun r _ => r)
    ⟨"a valid question", none, none, "0.3", 512, true, false, false⟩
    ⟨0, .ok "x"⟩ ⟨LRUCache.empty 100 300, 0⟩ rfl
    (fun h => nomatch h) (fun h => nomatch h)
  exact ⟨h.1, h.2.1⟩

/-! ## Claim C8: validate_prompt guards, and pre-flight rejection -/

/-- Claim C8: `validate_prompt` raises exactly when the (trimmed) prompt
is empty/whitespace, shorter than 10 characters, longer than 4000
characters, or matches a too-vague pattern; and when `generate` runs with
validation enabled on a prompt that fails validation, the error is raised
before any downstream call and the state is unchanged. -/
theorem validate_prompt_iff_preflight :
    (∀ p : String, (validatePrompt p).isSome ↔ invalidPromptSpec p)
    ∧ (∀ (sanitize : String → String) (clean : String → Bool → String)
        (args : GenArgs) (env : GenEnv) (st : GenState) (msg : String),
        args.validate = true → validatePrompt args.prompt = some msg →
        generate sanitize clean args env st =
          ⟨Except.error (.promptValidation msg), st, []⟩) := by
  constructor
  · intro p
    unfold validatePrompt invalidPromptSpec
    by_cases h0 : p = "" ∨ pyStripStr p = ""
    · rw [if_pos h0]
      rcases h0 with h0 | h0
      · simp [h0, pyStripStr, pyStrip]
      · simp [h0]
    · rw [if_neg h0]
      have hne : ¬ pyStripStr p = "" := fun h => h0 (Or.inr h)
      by_cases h1 : (pyStripStr p).length < MIN_PROMPT_LENGTH
      · simp [h1]
      · rw [if_neg h1]
        by_cases h2 : MAX_PROMPT_LENGTH < (pyStripStr p).length
        · simp [h1, h2]
        · rw [if_neg h2]
          by_cases h3 : isVague (lowerStr (pyStripStr p)) = true
          · simp [h1, h2, h3]
          · simp [h1, h2, h3, hne]
  · intro sanitize clean args env st msg hva hvp
    simp only [generate, hva, if_true, hvp]

/-- Witness for C8 at the concrete prompt "hi" (a vague greeting, and
also shorter than the minimum: the code reports the length failure
first) and a concrete rejected `generate` call. -/
theorem validate_prompt_iff_preflight_witness :
    ((validatePrompt "hi").isSome ↔ invalidPromptSpec "hi")
    ∧ generate id (fun r _ => r)
        ⟨"hi", none, none, "0.3", 512, true, true, true⟩
        ⟨0, .ok "x"⟩ ⟨LRUCache.empty 100 300, 2⟩ =
      ⟨Except.error (.promptValidation
          "Prompt too short. Minimum 10 characters required."),
        ⟨LRUCache.empty 100 300, 2⟩, []⟩ :=
  ⟨validate_prompt_iff_preflight.1 "hi",
   validate_prompt_iff_preflight.2 id (fun r _ => r)
     ⟨"hi", none, none, "0.3", 512, true, true, true⟩
     ⟨0, .ok "x"⟩ ⟨LRUCache.empty 100 300, 2⟩
     "Prompt too short. Minimum 10 characters required." rfl (by decide)⟩

/-! ## Claim C10: a custom system prompt bypasses the template entirely -/

theorem generate_calls_payload (sanitize : String → String) (clean : String → Bool → String)
    (args : GenArgs) (env : GenEnv) (st : GenState) :
    ∀ pl ∈ (generate sanitize clean args env st).calls,
      pl = ⟨(genParts (sanitize args.prompt) args.system args.template).2,
            (genParts (sanitize args.prompt) args.system args.template).1,
            args.temperature, min args.max_tokens MAX_OUTPUT_TOKENS⟩ := by
  intro pl hpl
  simp only [generate, acquireAndRun] at hpl
  repeat' split at hpl
  all_goals simp at hpl
  all_goals exact hpl

/-- Claim C10: when `generate` receives a custom system prompt, the
template argument is ignored entirely - the whole outcome (result, state,
downstream requests) is independent of it - and every downstream request
carries the sanitized user prompt verbatim as its prompt and the custom
system prompt as its system. -/
theorem generate_custom_system_ignores_template
    (sanitize : String → String) (clean : String → Bool → String)
    (p s : String) (t1 t2 : Option Template) (temperature : String) (mt : Nat)
    (sm va uc : Bool) (env : GenEnv) (st : GenState) :
    generate sanitize clean ⟨p, some s, t1, temperature, mt, sm, va, uc⟩ env st =
      generate sanitize clean ⟨p, some s, t2, temperature, mt, sm, va, uc⟩ env st
    ∧ ∀ pl ∈ (generate sanitize clean ⟨p, some s, t1, temperature, mt, sm, va, uc⟩ env st).calls,
        pl.prompt = sanitize p ∧ pl.system = s := by
  constructor
  · rfl
  · intro pl hpl
    have h := generate_calls_payload sanitize clean
      ⟨p, some s, t1, temperature, mt, sm, va, uc⟩ env st pl hpl
    rw [h]
    exact ⟨rfl, rfl⟩

/-- Witness for C10: concrete call with a custom system prompt; applying
the theorem's template-independence at two different templates. -/
theorem generate_custom_system_ignores_template_witness :
    generate id (fun r _ => r)
        ⟨"why is the sky blue", some "sys", some .ANALYZE, "0.3", 512, true, true, false⟩
        ⟨5, .ok "raw"⟩ ⟨LRUCache.empty 100 300, 2⟩ =
      generate id (fun r _ => r)
        ⟨"why is the sky blue", some "sys", some .EXPLAIN, "0.3", 512, true, true, false⟩
        ⟨5, .ok "raw"⟩ ⟨LRUCache.empty 100 300, 2⟩ :=
  (generate_custom_system_ignores_template id (fun r _ => r) "why is the sky blue" "sys"
    (some .ANALYZE) (some .EXPLAIN) "0.3" 512 true true false
    ⟨5, .ok "raw"⟩ ⟨LRUCache.empty 100 300, 2⟩).1

/-! ## Claim C1: generate is idempotent under caching -/

theorem generate_ok_validation (sanitize : String → String) (clean : String → Bool → String)
    (args : GenArgs) (env : GenEnv) (st : GenState) (v : String)
    (hok : (generate sanitize clean args env st).result = Except.ok v) :
    (if args.validate then validatePrompt args.prompt else none) = none := by
  cases hv : (if args.validate then validatePrompt args.prompt else none) with
  | none => rfl
  | some msg =>
    simp only [generate, hv] at hok
    exact absurd hok (by simp)

theorem generate_calls_le_one (sanitize : String → String) (clean : String → Bool → String)
    (args : GenArgs) (env : GenEnv) (st : GenState) :
    (generate sanitize clean args env st).calls.length ≤ 1 := by
  simp only [generate, acquireAndRun]
  repeat' split
  all_goals simp

theorem set_some_entries {c c2 : LRUCache} {k v : String} {now : Nat}
    (h : c.set k v now = some c2) :
    ∃ l, c2 = { c with entries := assocSet l k ⟨v, now, 0⟩ } := by
  simp only [LRUCache.set] at h
  revert h
  cases hev : evictLoop c.max_size c.entries with
  | none =>
    intro h
    exact absurd h (by simp)
  | some l =>
    intro h
    simp at h
    exact ⟨l, h.symm⟩

theorem acquireAndRun_ok_entry (clean : String → Bool → String)
    (formatted system temperature : String) (effMax : Nat) (stripMd : Bool)
    (k : String) (env : GenEnv) (cache : LRUCache) (sem : Nat) (v : String)
    (hok : (acquireAndRun clean formatted system temperature effMax stripMd
        (some k) env cache sem).result = Except.ok v) :
    ∃ e, assocFind (acquireAndRun clean formatted system temperature effMax stripMd
        (some k) env cache sem).state.cache.entries k = some e ∧ e.response = v := by
  simp only [acquireAndRun] at hok ⊢
  by_cases hsem : sem = 0
  · rw [if_pos hsem] at hok
    exact absurd hok (by simp)
  · rw [if_neg hsem] at hok ⊢
    revert hok
    cases ho : env.outcome with
    | ok raw =>
      intro hok
      try simp only [] at hok ⊢
      revert hok
      cases hset : cache.set k (clean raw stripMd) env.now with
      | none =>
        intro hok
        exact absurd hok (by simp)
      | some c2 =>
        intro hok
        try simp only [] at hok ⊢
        replace hok : clean raw stripMd = v := by simpa using hok
        obtain ⟨l, hc2⟩ := set_some_entries hset
        refine ⟨⟨clean raw stripMd, env.now, 0⟩, ?_, hok⟩
        rw [hc2]
        exact assocSet_find_self l _ _
    | timedOut =>
      intro hok
      exact absurd hok (by simp)
    | connectError =>
      intro hok
      exact absurd hok (by simp)
    | statusError code =>
      intro hok
      exact absurd hok (by simp)
    | unexpected =>
      intro hok
      exact absurd hok (by simp)

theorem generate_ok_entry (sanitize : String → String) (clean : String → Bool → String)
    (args : GenArgs) (env : GenEnv) (st : GenState) (v : String)
    (hnd : (st.cache.entries.map Prod.fst).Nodup)
    (huc : args.use_cache = true)
    (hok : (generate sanitize clean args env st).result = Except.ok v) :
    ∃ e, assocFind (generate sanitize clean args env st).state.cache.entries
          (genKey sanitize args) = some e ∧ e.response = v := by
  have hv := generate_ok_validation sanitize clean args env st v hok
  simp only [generate, hv, huc, if_true] at hok ⊢
  simp only [genKey]
  cases hfind : assocFind st.cache.entries
      (LRUCache.make_key (genParts (sanitize args.prompt) args.system args.template).2
        (genParts (sanitize args.prompt) args.system args.template).1 args.temperature
        (min args.max_tokens MAX_OUTPUT_TOKENS)) with
  | some e =>
    by_cases hexp : e.created_at + st.cache.ttl < env.now
    · rw [get_of_expired hfind hexp] at hok ⊢
      try simp only [] at hok ⊢
      exact acquireAndRun_ok_entry clean _ _ _ _ _ _ env _ _ v hok
    · rw [get_of_live hfind hexp] at hok ⊢
      try simp only [] at hok ⊢
      replace hok : e.response = v := by simpa using hok
      refine ⟨{ e with hit_count := e.hit_count + 1 }, ?_, hok⟩
      rw [assocFind_append_of_none (eraseKey_find_none hnd)]
      simp [assocFind]
  | none =>
    rw [get_of_find_none hfind] at hok ⊢
    try simp only [] at hok ⊢
    exact acquireAndRun_ok_entry clean _ _ _ _ _ _ env _ _ v hok

theorem generate_hit (sanitize : String → String) (clean : String → Bool → String)
    (args : GenArgs) (env : GenEnv) (st : GenState) (e : CacheEntry)
    (hv : (if args.validate then validatePrompt args.prompt else none) = none)
    (huc : args.use_cache = true)
    (hf : assocFind st.cache.entries (genKey sanitize args) = some e)
    (hfresh : ¬ e.created_at + st.cache.ttl < env.now) :
    (generate sanitize clean args env st).result = Except.ok e.response
    ∧ (generate sanitize clean args env st).calls = [] := by
  simp only [genKey] at hf
  simp only [generate, hv, huc, if_true, get_of_live hf hfresh]
  exact ⟨by trivial, by trivial⟩

/-- Claim C1: if a first `generate` call with `use_cache = true` returns
a value, then a second call with identical arguments - made while the
cached entry for that request is still within its TTL and before any
eviction - issues no downstream call and returns exactly the cached
cleaned response; the first call itself issued at most one downstream
call, so at most one downstream call is issued in total. (The `Nodup`
hypothesis is the dictionary invariant of the initial cache state.) -/
theorem generate_cache_idempotent
    (sanitize : String → String) (clean : String → Bool → String)
    (args : GenArgs) (env1 env2 : GenEnv) (st : GenState) (v : String)
    (hnd : (st.cache.entries.map Prod.fst).Nodup)
    (huc : args.use_cache = true)
    (hok : (generate sanitize clean args env1 st).result = Except.ok v)
    (hfresh : entryFresh (generate sanitize clean args env1 st).state.cache
        (genKey sanitize args) env2.now = true) :
    (generate sanitize clean args env1 st).calls.length ≤ 1
    ∧ (generate sanitize clean args env2
        (generate sanitize clean args env1 st).state).result = Except.ok v
    ∧ (generate sanitize clean args env2
        (generate sanitize clean args env1 st).state).calls = [] := by
  obtain ⟨e, hf, hr⟩ := generate_ok_entry sanitize clean args env1 st v hnd huc hok
  have hv1 := generate_ok_validation sanitize clean args env1 st v hok
  have hfr : ¬ e.created_at + (generate sanitize clean args env1 st).state.cache.ttl
      < env2.now := by
    unfold entryFresh at hfresh
    rw [hf] at hfresh
    simp at hfresh
    omega
  have hhit := generate_hit sanitize clean args env2
    (generate sanitize clean args env1 st).state e hv1 huc hf hfr
  refine ⟨generate_calls_le_one sanitize clean args env1 st, ?_, hhit.2⟩
  rw [hhit.1, hr]

/-- Witness for C1: a concrete first call (cache miss, downstream
succeeds, response cached at t=1000) followed by a second identical call
at t=1100, within the 300-tick TTL. -/
theorem generate_cache_idempotent_witness :
    (generate id (fun r _ => r)
        ⟨"what makes volcanoes erupt", some "sys", none, "0.3", 512, true, true, true⟩
        ⟨1000, .ok "Magma rises."⟩ ⟨LRUCache.empty 100 300, 2⟩).calls.length ≤ 1
    ∧ (generate id (fun r _ => r)
        ⟨"what makes volcanoes erupt", some "sys", none, "0.3", 512, true, true, true⟩
        ⟨1100, .unexpected⟩
        (generate id (fun r _ => r)
          ⟨"what makes volcanoes erupt", some "sys", none, "0.3", 512, true, true, true⟩
          ⟨1000, .ok "Magma rises."⟩ ⟨LRUCache.empty 100 300, 2⟩).state).result =
      Except.ok "Magma rises."
    ∧ (generate id (fun r _ => r)
        ⟨"what makes volcanoes erupt", some "sys", none, "0.3", 512, true, true, true⟩
        ⟨1100, .unexpected⟩
        (generate id (fun r _ => r)
          ⟨"what makes volcanoes erupt", some "sys", none, "0.3", 512, true, true, true⟩
          ⟨1000, .ok "Magma rises."⟩ ⟨LRUCache.empty 100 300, 2⟩).state).calls = [] :=
  generate_cache_idempotent id (fun r _ => r)
    ⟨"what makes volcanoes erupt", some "sys", none, "0.3", 512, true, true, true⟩
    ⟨1000, .ok "Magma rises."⟩ ⟨1100, .unexpected⟩ ⟨LRUCache.empty 100 300, 2⟩
    "Magma rises." (by decide) rfl (by decide) (by decide)

/-! ## Claim C9: truncation of cleaned responses -/

theorem maxInt_mem (a : Int) (l : List Int) : maxInt a l ∈ a :: l := by
  induction l generalizing a with
  | nil => simp [maxInt]
  | cons x t ih =>
    simp only [maxInt]
    rcases List.mem_cons.mp (ih (max a x)) with h1 | h2
    · rw [h1]
      rcases max_choice a x with hm | hm <;> rw [hm]
      · exact List.mem_cons_self _ _
      · exact List.mem_cons_of_mem _ (List.mem_cons_self _ _)
    · exact List.mem_cons_of_mem _ (List.mem_cons_of_mem _ h2)

theorem le_maxInt (a : Int) (l : List Int) : ∀ x ∈ a :: l, x ≤ maxInt a l := by
  induction l generalizing a with
  | nil =>
    intro x hx
    simp at hx
    simp [maxInt, hx]
  | cons y t ih =>
    intro x hx
    simp only [maxInt]
    rcases List.mem_cons.mp hx with h1 | h2
    · subst h1
      exact le_trans (le_max_left x y) (ih (max x y) (max x y) (List.mem_cons_self _ _))
    · rcases List.mem_cons.mp h2 with h3 | h4
      · subst h3
        exact le_trans (le_max_right a x) (ih (max a x) (max a x) (List.mem_cons_self _ _))
      · exact ih (max a y) x (List.mem_cons_of_mem _ h4)

theorem rfindPos_spec (pat : List Char) : ∀ (l : List Char) (i : Nat),
    rfindPos pat l = some i → pat.isPrefixOf (l.drop i) = true := by
  intro l
  induction l with
  | nil =>
    intro i h
    simp only [rfindPos] at h
    split at h
    · cases h
      simp_all [List.isPrefixOf]
    · cases h
  | cons c t ih =>
    intro i h
    simp only [rfindPos] at h
    revert h
    cases hr : rfindPos pat t with
    | some j =>
      intro h
      cases h
      simpa using ih j hr
    | none =>
      intro h
      by_cases hp : pat.isPrefixOf (c :: t) = true
      · rw [if_pos hp] at h
        cases h
        simpa using hp
      · rw [if_neg hp] at h
        cases h

theorem rfindPos_ge (pat : List Char) (hne : pat ≠ []) : ∀ (l : List Char) (j : Nat),
    pat.isPrefixOf (l.drop j) = true → ∃ i, rfindPos pat l = some i ∧ j ≤ i := by
  intro l
  induction l with
  | nil =>
    intro j h
    rw [List.drop_nil] at h
    cases pat with
    | nil => exact absurd rfl hne
    | cons a b => simp [List.isPrefixOf] at h
  | cons c t ih =>
    intro j h
    cases j with
    | zero =>
      simp only [rfindPos]
      cases hr : rfindPos pat t with
      | some i => exact ⟨i + 1, rfl, by omega⟩
      | none =>
        rw [List.drop_zero] at h
        exact ⟨0, by rw [if_pos h], by omega⟩
    | succ j' =>
      rw [List.drop_succ_cons] at h
      obtain ⟨i, hi, hj⟩ := ih j' h
      simp only [rfindPos, hi]
      exact ⟨i + 1, rfl, by omega⟩

theorem pyStrip_length_le (l : List Char) : (pyStrip l).length ≤ l.length := by
  unfold pyStrip
  have h1 : (l.dropWhile pyWs).length ≤ l.length := (List.dropWhile_sublist pyWs).length_le
  have h2 : (((l.dropWhile pyWs).reverse.dropWhile pyWs)).length ≤
      (l.dropWhile pyWs).reverse.length := (List.dropWhile_sublist pyWs).length_le
  rw [List.length_reverse] at *
  omega

theorem singleton_isPrefixOf_iff (c : Char) (l : List Char) (q : Nat) :
    ([c].isPrefixOf (l.drop q) = true) ↔ l.get? q = some c := by
  have hget : l.get? q = (l.drop q).head? := by
    rw [List.get?_eq_getElem?, List.head?_eq_getElem?]
    simp [List.getElem?_drop]
  cases hd : l.drop q with
  | nil =>
    rw [hget, hd]
    simp [List.isPrefixOf]
  | cons x t =>
    rw [hget, hd]
    simp [List.isPrefixOf]
    exact eq_comm

theorem truncateSafely_length (text : List Char) (maxL : Nat)
    (hsuf : TRUNCATION_SUFFIX.length ≤ maxL) :
    (truncateSafely text maxL).length ≤ maxL := by
  by_cases hlen : text.length ≤ maxL
  · simp only [truncateSafely, if_pos hlen]
    exact hlen
  · have hbound : ∀ l : List Char, l.length ≤ maxL - TRUNCATION_SUFFIX.length →
        (pyStrip l ++ TRUNCATION_SUFFIX).length ≤ maxL := by
      intro l hl
      rw [List.length_append]
      have h1 := pyStrip_length_le l
      omega
    have htk : ∀ p : Nat,
        ((text.take (maxL - TRUNCATION_SUFFIX.length)).take p).length ≤
          maxL - TRUNCATION_SUFFIX.length := by
      intro p
      simp only [List.length_take]
      omega
    simp only [truncateSafely, if_neg hlen]
    repeat' split
    · exact hbound _ (htk _)
    · exact hbound _ (htk _)
    · exact hbound _ (htk _)
    · exact hbound _ (by simp only [List.length_take]; omega)

theorem truncateSafely_marker (text : List Char) (maxL : Nat)
    (hlen : ¬ text.length ≤ maxL) :
    ∃ pre, truncateSafely text maxL = pre ++ TRUNCATION_SUFFIX := by
  simp only [truncateSafely, if_neg hlen]
  repeat' split
  all_goals exact ⟨_, rfl⟩

theorem truncateSafely_spec (text : List Char) (maxL : Nat)
    (hlong : maxL < text.length) :
    ((∃ q, paraHit (text.take (effLen maxL)) (effLen maxL) q ∨
        sentHit (text.take (effLen maxL)) (effLen maxL) q) →
       ∃ p, truncateSafely text maxL =
           pyStrip ((text.take (effLen maxL)).take p) ++ TRUNCATION_SUFFIX
         ∧ (paraHit (text.take (effLen maxL)) (effLen maxL) p
            ∨ ∃ q, sentHit (text.take (effLen maxL)) (effLen maxL) q ∧ p = q + 1))
    ∧ ((¬ ∃ q, paraHit (text.take (effLen maxL)) (effLen maxL) q ∨
          sentHit (text.take (effLen maxL)) (effLen maxL) q) →
        ((∃ q, spaceHit (text.take (effLen maxL)) (effLen maxL) q) →
           ∃ p, truncateSafely text maxL =
               pyStrip ((text.take (effLen maxL)).take p) ++ TRUNCATION_SUFFIX
             ∧ spaceHit (text.take (effLen maxL)) (effLen maxL) p)
        ∧ ((¬ ∃ q, spaceHit (text.take (effLen maxL)) (effLen maxL) q) →
            truncateSafely text maxL =
              pyStrip (text.take (effLen maxL)) ++ TRUNCATION_SUFFIX)) := by
  have hguard : ¬ text.length ≤ maxL := by omega
  simp only [truncateSafely, effLen, if_neg hguard]
  set eff := maxL - TRUNCATION_SUFFIX.length with heff
  set tr := text.take eff with htr
  set lp := rfind ['\n', '\n'] tr with hlp
  set ls := maxInt (rfind ['.', ' '] tr) [rfind ['.', '\n'] tr, rfind ['?', ' '] tr,
    rfind ['?', '\n'] tr, rfind ['!', ' '] tr, rfind ['!', '\n'] tr] with hls
  set lsp := rfind [' '] tr with hlsp
  have hlp_ge : ∀ q, ['\n', '\n'].isPrefixOf (tr.drop q) = true → (q : Int) ≤ lp := by
    intro q hq
    obtain ⟨i, hi, hqi⟩ := rfindPos_ge ['\n', '\n'] (by decide) tr q hq
    rw [hlp]
    simp only [rfind, hi]
    exact_mod_cast hqi
  have hsent_ge : ∀ pat ∈ sentPats, ∀ q, pat.isPrefixOf (tr.drop q) = true →
      (q : Int) ≤ ls := by
    intro pat hmem q hq
    have hne : pat ≠ [] := by
      simp only [sentPats, List.mem_cons, List.not_mem_nil, or_false] at hmem
      rcases hmem with rfl | rfl | rfl | rfl | rfl | rfl <;> simp
    obtain ⟨i, hi, hqi⟩ := rfindPos_ge pat hne tr q hq
    have hval : rfind pat tr = (i : Int) := by simp [rfind, hi]
    have hle : rfind pat tr ≤ ls := by
      rw [hls]
      apply le_maxInt
      simp only [sentPats, List.mem_cons, List.not_mem_nil, or_false] at hmem
      rcases hmem with rfl | rfl | rfl | rfl | rfl | rfl <;> simp
    have h1 : (q : Int) ≤ (i : Int) := by exact_mod_cast hqi
    omega
  by_cases hA : (eff : Int) < 2 * lp
  · simp only [if_pos hA]
    have hlpnn : (0 : Int) ≤ lp := by omega
    have hsome : ∃ i, rfindPos ['\n', '\n'] tr = some i ∧ lp = (i : Int) := by
      rw [hlp]
      cases hr : rfindPos ['\n', '\n'] tr with
      | none =>
        exfalso
        rw [hlp] at hlpnn
        simp [rfind, hr] at hlpnn
      | some i => exact ⟨i, rfl, by simp [rfind, hr]⟩
    obtain ⟨i, hi, hlpi⟩ := hsome
    have hph : paraHit tr eff lp.toNat := by
      constructor
      · have hocc := rfindPos_spec ['\n', '\n'] tr i hi
        rw [hlpi]
        simpa using hocc
      · omega
    exact ⟨fun _ => ⟨lp.toNat, rfl, Or.inl hph⟩,
           fun hno => absurd ⟨lp.toNat, Or.inl hph⟩ hno⟩
  · simp only [if_neg hA]
    by_cases hB : (eff : Int) < 2 * ls
    · simp only [if_pos hB]
      have hlsnn : (0 : Int) ≤ ls := by omega
      have hmem := maxInt_mem (rfind ['.', ' '] tr) [rfind ['.', '\n'] tr, rfind ['?', ' '] tr,
        rfind ['?', '\n'] tr, rfind ['!', ' '] tr, rfind ['!', '\n'] tr]
      rw [← hls] at hmem
      have hex : ∃ pat, pat ∈ sentPats ∧ rfind pat tr = ls := by
        simp only [List.mem_cons, List.not_mem_nil, or_false] at hmem
        rcases hmem with h | h | h | h | h | h
        · exact ⟨['.', ' '], by simp [sentPats], h.symm⟩
        · exact ⟨['.', '\n'], by simp [sentPats], h.symm⟩
        · exact ⟨['?', ' '], by simp [sentPats], h.symm⟩
        · exact ⟨['?', '\n'], by simp [sentPats], h.symm⟩
        · exact ⟨['!', ' '], by simp [sentPats], h.symm⟩
        · exact ⟨['!', '\n'], by simp [sentPats], h.symm⟩
      have hsh : sentHit tr eff ls.toNat := by
        obtain ⟨pat, hpm, hpe⟩ := hex
        have hne : pat ≠ [] := by
          simp only [sentPats, List.mem_cons, List.not_mem_nil, or_false] at hpm
          rcases hpm with rfl | rfl | rfl | rfl | rfl | rfl <;> simp
        have hsm : ∃ i, rfindPos pat tr = some i ∧ ls = (i : Int) := by
          cases hr : rfindPos pat tr with
          | none =>
            exfalso
            rw [← hpe] at hlsnn
            simp [rfind, hr] at hlsnn
          | some i => exact ⟨i, rfl, by rw [← hpe]; simp [rfind, hr]⟩
        obtain ⟨i, hi, hlsi⟩ := hsm
        constructor
        · refine ⟨pat, hpm, ?_⟩
          have hocc := rfindPos_spec pat tr i hi
          rw [hlsi]
          simpa using hocc
        · omega
      have htn : (ls + 1).toNat = ls.toNat + 1 := by omega
      refine ⟨fun _ => ⟨ls.toNat + 1, by rw [htn], Or.inr ⟨ls.toNat, hsh, rfl⟩⟩,
              fun hno => absurd ⟨ls.toNat, Or.inr hsh⟩ hno⟩
    · simp only [if_neg hB]
      have hnops : ¬ ∃ q, paraHit tr eff q ∨ sentHit tr eff q := by
        rintro ⟨q, hq | hq⟩
        · obtain ⟨hocc, hthr⟩ := hq
          have := hlp_ge q hocc
          omega
        · obtain ⟨⟨pat, hpm, hocc⟩, hthr⟩ := hq
          have := hsent_ge pat hpm q hocc
          omega
      by_cases hC : (7 * eff : Int) < 10 * lsp
      · simp only [if_pos hC]
        have hlspnn : (0 : Int) ≤ lsp := by omega
        have hsm : ∃ i, rfindPos [' '] tr = some i ∧ lsp = (i : Int) := by
          cases hr : rfindPos [' '] tr with
          | none =>
            exfalso
            rw [hlsp] at hlspnn
            simp [rfind, hr] at hlspnn
          | some i => exact ⟨i, rfl, by rw [hlsp]; simp [rfind, hr]⟩
        obtain ⟨i, hi, hlspi⟩ := hsm
        have hsp : spaceHit tr eff lsp.toNat := by
          constructor
          · have hocc := rfindPos_spec [' '] tr i hi
            rw [singleton_isPrefixOf_iff] at hocc
            rw [hlspi]
            simpa using hocc
          · omega
        exact ⟨fun hex => absurd hex hnops,
               fun _ => ⟨fun _ => ⟨lsp.toNat, rfl, hsp⟩, fun hno => absurd ⟨lsp.toNat, hsp⟩ hno⟩⟩
      · simp only [if_neg hC]
        refine ⟨fun hex => absurd hex hnops, fun _ => ⟨?_, fun _ => by trivial⟩⟩
        rintro ⟨q, hq1, hq2⟩
        exfalso
        have hocc : [' '].isPrefixOf (tr.drop q) = true :=
          (singleton_isPrefixOf_iff _ _ _).mpr hq1
        obtain ⟨i, hi, hqi⟩ := rfindPos_ge [' '] (by decide) tr q hocc
        have hv : lsp = (i : Int) := by rw [hlsp]; simp [rfind, hi]
        omega

/-- Claim C9, amended: the output of response cleaning never exceeds the
configured maximum length; a response longer than the maximum carries the
truncation marker and is cut at a paragraph or sentence boundary when one
exists within the tail 50% of the allowed length; otherwise it is
word-boundary-cut when a space lies within the tail 30%; otherwise it is
hard-cut at the character limit (the code's fallback the original claim
omits). -/
theorem clean_response_truncation_amended (text : List Char) (maxL : Nat)
    (hsuf : TRUNCATION_SUFFIX.length ≤ maxL) :
    (cleanFinalize text maxL).length ≤ maxL
    ∧ (maxL < (pyStrip (collapseBlank text)).length →
        TRUNCATION_SUFFIX <:+ cleanFinalize text maxL
        ∧ ((∃ q, paraHit (truncBase text maxL) (effLen maxL) q ∨
              sentHit (truncBase text maxL) (effLen maxL) q) →
             ∃ p, cleanFinalize text maxL =
                 pyStrip ((truncBase text maxL).take p) ++ TRUNCATION_SUFFIX
               ∧ (paraHit (truncBase text maxL) (effLen maxL) p
                  ∨ ∃ q, sentHit (truncBase text maxL) (effLen maxL) q ∧ p = q + 1))
        ∧ ((¬ ∃ q, paraHit (truncBase text maxL) (effLen maxL) q ∨
              sentHit (truncBase text maxL) (effLen maxL) q) →
            ((∃ q, spaceHit (truncBase text maxL) (effLen maxL) q) →
               ∃ p, cleanFinalize text maxL =
                   pyStrip ((truncBase text maxL).take p) ++ TRUNCATION_SUFFIX
                 ∧ spaceHit (truncBase text maxL) (effLen maxL) p)
            ∧ ((¬ ∃ q, spaceHit (truncBase text maxL) (effLen maxL) q) →
                cleanFinalize text maxL =
                  pyStrip (truncBase text maxL) ++ TRUNCATION_SUFFIX))) := by
  constructor
  · unfold cleanFinalize
    by_cases h : maxL < (pyStrip (collapseBlank text)).length
    · rw [if_pos h]
      exact truncateSafely_length _ _ hsuf
    · rw [if_neg h]
      omega
  · intro hlong
    have hcf : cleanFinalize text maxL = truncateSafely (pyStrip (collapseBlank text)) maxL := by
      unfold cleanFinalize
      rw [if_pos hlong]
    have hspec := truncateSafely_spec (pyStrip (collapseBlank text)) maxL hlong
    have htb : truncBase text maxL = (pyStrip (collapseBlank text)).take (effLen maxL) := rfl
    refine ⟨?_, ?_, ?_⟩
    · obtain ⟨pre, hpre⟩ := truncateSafely_marker (pyStrip (collapseBlank text)) maxL (by omega)
      rw [hcf, hpre]
      exact ⟨pre, rfl⟩
    · rw [hcf, htb]
      exact hspec.1
    · rw [hcf, htb]
      exact hspec.2

/-- Witness for C9 (amended) at a concrete short input. -/
theorem clean_response_truncation_amended_witness :
    (cleanFinalize (List.replicate 50 'b') MAX_RESPONSE_LENGTH).length ≤ MAX_RESPONSE_LENGTH :=
  (clean_response_truncation_amended (List.replicate 50 'b') MAX_RESPONSE_LENGTH (by decide)).1

theorem cons_isPrefixOf_replicate {c : Char} {cs : List Char} {n : Nat} {a : Char}
    (h : (c :: cs).isPrefixOf (List.replicate n a) = true) : c = a := by
  cases n with
  | zero => simp [List.isPrefixOf] at h
  | succ m =>
    rw [List.replicate_succ] at h
    simp [List.isPrefixOf] at h
    exact h.1

theorem dropWhile_pyWs_replicate_a (m : Nat) :
    (List.replicate m 'a').dropWhile pyWs = List.replicate m 'a' := by
  cases m with
  | zero => simp
  | succ k =>
    rw [List.replicate_succ, List.dropWhile_cons]
    rw [if_neg (by decide)]

theorem pyStrip_replicate_a (n : Nat) :
    pyStrip (List.replicate n 'a') = List.replicate n 'a' := by
  unfold pyStrip
  rw [dropWhile_pyWs_replicate_a, List.reverse_replicate, dropWhile_pyWs_replicate_a,
    List.reverse_replicate]

theorem collapseBlank_replicate_a (n : Nat) :
    collapseBlank (List.replicate n 'a') = List.replicate n 'a' := by
  unfold collapseBlank
  induction n with
  | zero => simp [collapseBlankAux, emitNl]
  | succ m ih =>
    rw [List.replicate_succ]
    simp only [collapseBlankAux]
    rw [if_neg (by decide : ¬ ('a' = '\n'))]
    simp only [emitNl, if_neg (by omega : ¬ (3 ≤ 0)), List.replicate_zero, List.nil_append]
    rw [ih]

theorem rfindPos_replicate_a_none {c : Char} {cs : List Char} (hne : ¬ c = 'a') :
    ∀ n, rfindPos (c :: cs) (List.replicate n 'a') = none := by
  intro n
  induction n with
  | zero => simp [rfindPos]
  | succ m ih =>
    rw [List.replicate_succ]
    simp only [rfindPos, ih]
    rw [if_neg ?_]
    intro h
    exact hne (cons_isPrefixOf_replicate (n := m + 1) (by rw [List.replicate_succ]; exact h))

theorem cleanFinalize_replicate_a :
    cleanFinalize (List.replicate 2001 'a') MAX_RESPONSE_LENGTH =
      List.replicate 1978 'a' ++ TRUNCATION_SUFFIX := by
  have hs22 : TRUNCATION_SUFFIX.length = 22 := by decide
  have hrf : ∀ (c : Char) (cs : List Char), ¬ c = 'a' →
      rfind (c :: cs) (List.replicate 1978 'a') = -1 := by
    intro c cs hne
    unfold rfind
    rw [rfindPos_replicate_a_none hne]
  simp only [cleanFinalize]
  rw [collapseBlank_replicate_a, pyStrip_replicate_a]
  rw [if_pos (by simp [MAX_RESPONSE_LENGTH])]
  simp only [truncateSafely]
  rw [if_neg (by simp [MAX_RESPONSE_LENGTH])]
  rw [hs22]
  have htake : List.take (MAX_RESPONSE_LENGTH - 22) (List.replicate 2001 'a') =
      List.replicate 1978 'a' := by
    rw [List.take_replicate]
    rfl
  rw [htake]
  rw [hrf '\n' ['\n'] (by decide), hrf '.' [' '] (by decide), hrf '.' ['\n'] (by decide),
    hrf '?' [' '] (by decide), hrf '?' ['\n'] (by decide), hrf '!' [' '] (by decide),
    hrf '!' ['\n'] (by decide), hrf ' ' [] (by decide)]
  rw [if_neg (by decide), if_neg (by decide), if_neg (by decide)]
  rw [pyStrip_replicate_a]

/-- Claim C9 counterexample: for a 2001-character response with no
whitespace or punctuation at all (so no paragraph or sentence boundary in
the tail 50%), the claim says the cut is word-boundary; the code instead
hard-cuts mid-run at the 1978-character effective limit - the cleaned
output is not a word-boundary cut of the truncated text. -/
theorem clean_response_c9_counterexample :
    (¬ ∃ q, paraHit (List.replicate 1978 'a') 1978 q ∨
        sentHit (List.replicate 1978 'a') 1978 q)
    ∧ cleanFinalize (List.replicate 2001 'a') MAX_RESPONSE_LENGTH =
        List.replicate 1978 'a' ++ TRUNCATION_SUFFIX
    ∧ ¬ wordBoundaryCut (List.replicate 1978 'a')
        (cleanFinalize (List.replicate 2001 'a') MAX_RESPONSE_LENGTH) := by
  refine ⟨?_, ?_, ?_⟩
  · rintro ⟨q, ⟨hocc, -⟩ | ⟨⟨pat, hpm, hocc⟩, -⟩⟩
    · rw [List.drop_replicate] at hocc
      exact absurd (cons_isPrefixOf_replicate hocc) (by decide)
    · rw [List.drop_replicate] at hocc
      simp only [sentPats, List.mem_cons, List.not_mem_nil, or_false] at hpm
      rcases hpm with rfl | rfl | rfl | rfl | rfl | rfl <;>
        exact absurd (cons_isPrefixOf_replicate hocc) (by decide)
  · exact cleanFinalize_replicate_a
  · rintro ⟨p, hlt, hsp, -⟩
    rw [List.get?_eq_getElem?, List.getElem?_replicate] at hsp
    split at hsp
    · exact absurd hsp (by decide)
    · exact absurd hsp (by simp)
